import Mathlib

/-!
Verification development for the session orchestration and state
reconciliation engine of a multiplayer narrative (D&D-style) web client.

The definitions below are a shallow embedding of the Zustand game store
(`useGameStore`): the data model (rooms, participants, chat messages, roll
requests), the Response Repair pipeline (`JSON.parse`, the greedy brace
regex fallback, the choice-padding loop), the State Reconciler
(`_triggerGmResponse`'s write batch), the Dice Resolver (`performRoll`),
the trigger guard in the chat subscription callback of `joinRoom`, and the
`sendMessage` operation.

Conventions of the embedding:
- Firestore timestamps are naturals; document ids are strings.
- JavaScript string falsiness (`undefined`, `null`, `""`) is modelled by
  `Option String` plus `jsTruthyStr`, which maps `some ""` to `none`.
- `Math.random()` is modelled as an exact rational `u / d` with `u < d`,
  so `Math.floor(Math.random() * max)` is integer floor division.
- JSON numeric literals are modelled as integers only; the inputs the
  claims quantify over contain no fractional literals.
-/

/-- Chat message roles, from the `ChatMessage` interface. -/
inductive Role where
  | user
  | assistant
  | system
deriving DecidableEq, Repr

/-- The payload of a chat message as written by the client
(the Firestore-assigned id and server timestamp are not part of the
written payload). -/
structure MsgData where
  role : Role
  content : String
  senderName : Option String
  isAction : Bool
deriving DecidableEq, Repr

/-- A chat message as read back from the `messages` subscription,
mirroring the `ChatMessage` interface. -/
structure ChatMessage where
  id : String
  role : Role
  content : String
  senderName : Option String
  isAction : Bool
  timestamp : Nat
deriving DecidableEq, Repr

/-- The `RollRequest` interface: the pending dice check stored in
`Room.activeRoll`. -/
structure RollRequest where
  playerId : String
  playerName : String
  diceType : String
  reason : String
deriving DecidableEq, Repr

/-- Game status of a room (`'lobby' | 'playing'`). -/
inductive GameStatus where
  | lobby
  | playing
deriving DecidableEq, Repr

/-- The `GameRoom` interface. -/
structure GameRoom where
  id : String
  hostId : String
  gameStatus : GameStatus
  activeRoll : Option RollRequest
  currentScene : Option String
deriving DecidableEq, Repr

/-- The `Player` interface (the random six ability scores are kept as an
association list and play no role in any claim). -/
structure Player where
  id : String
  name : String
  avatar : Option String
  characterClass : Option String
  stats : List (String × Int)
  isReady : Bool
  choices : Option (List String)
deriving DecidableEq, Repr

/-- JavaScript truthiness of an optional string field:
`undefined`/`null`/`""` are falsy, every other string is truthy. -/
def jsTruthyStr (o : Option String) : Option String :=
  o.bind (fun s => if s.isEmpty then none else some s)

/-- A JSON value (numeric literals restricted to integers). -/
inductive Json where
  | null
  | bool (b : Bool)
  | num (n : Int)
  | str (s : String)
  | arr (items : List Json)
  | obj (fields : List (String × Json))
deriving Repr

/-- JavaScript truthiness of a JSON value: `null`, `false`, `0` and `""`
are falsy; every array and object is truthy. -/
def jsTruthyJson : Json → Bool
  | .null => false
  | .bool b => b
  | .num n => n != 0
  | .str s => !s.isEmpty
  | .arr _ => true
  | .obj _ => true

/-- Drop leading JSON whitespace. -/
def skipWs : List Char → List Char
  | [] => []
  | c :: cs =>
    if c = ' ' ∨ c = '\t' ∨ c = '\n' ∨ c = '\r' then skipWs cs else c :: cs

/-- Decode a JSON string escape character (the common single-character
escapes; `\u` sequences are outside the modelled fragment). -/
def escChar (c : Char) : Option Char :=
  if c = '"' ∨ c = '\\' ∨ c = '/' then some c
  else if c = 'n' then some '\n'
  else if c = 't' then some '\t'
  else if c = 'r' then some '\r'
  else none

/-- Parse the remainder of a JSON string literal (the opening quote has
already been consumed), returning the decoded string and the rest. -/
def parseStringRest : List Char → Option (List Char × List Char)
  | [] => none
  | '"' :: rest => some ([], rest)
  | '\\' :: e :: rest => do
    let c ← escChar e
    let (s, r) ← parseStringRest rest
    pure (c :: s, r)
  | c :: rest => do
    let (s, r) ← parseStringRest rest
    pure (c :: s, r)

/-- Numeric value of a (non-empty) run of decimal digits. -/
def digitsToNat (ds : List Char) : Nat :=
  ds.foldl (fun n c => n * 10 + (c.toNat - '0'.toNat)) 0

/-- Parse a JSON integer literal starting at the given characters. -/
def parseIntLit (cs : List Char) : Option (Int × List Char) :=
  let (neg, cs') := match cs with
    | '-' :: r => (true, r)
    | _ => (false, cs)
  let ds := cs'.takeWhile Char.isDigit
  if ds.isEmpty then none
  else
    let n : Int := Int.ofNat (digitsToNat ds)
    some (if neg then -n else n, cs'.drop ds.length)

mutual

/-- Parse one JSON value (fuel-indexed; fuel bounds nesting depth). -/
def parseValue : Nat → List Char → Option (Json × List Char)
  | 0, _ => none
  | f + 1, cs =>
    match skipWs cs with
    | 'n' :: 'u' :: 'l' :: 'l' :: rest => some (.null, rest)
    | 't' :: 'r' :: 'u' :: 'e' :: rest => some (.bool true, rest)
    | 'f' :: 'a' :: 'l' :: 's' :: 'e' :: rest => some (.bool false, rest)
    | '"' :: rest =>
      (parseStringRest rest).map (fun p => (.str ⟨p.1⟩, p.2))
    | '\x7b' :: rest =>
      (match skipWs rest with
       | '\x7d' :: rest2 => some (.obj [], rest2)
       | other => parseMembers f other [])
    | '[' :: rest =>
      (match skipWs rest with
       | ']' :: rest2 => some (.arr [], rest2)
       | other => parseItems f other [])
    | other => (parseIntLit other).map (fun p => (.num p.1, p.2))

/-- Parse the members of a JSON object, accumulating parsed fields.
Duplicate keys overwrite the earlier value in place, as `JSON.parse`
does. -/
def parseMembers : Nat → List Char → List (String × Json) →
    Option (Json × List Char)
  | 0, _, _ => none
  | f + 1, cs, acc =>
    match skipWs cs with
    | '"' :: rest => do
      let (k, r1) ← parseStringRest rest
      match skipWs r1 with
      | ':' :: r2 => do
        let (v, r3) ← parseValue f r2
        let acc' := insertField acc ⟨k⟩ v
        match skipWs r3 with
        | ',' :: r4 => parseMembers f r4 acc'
        | '\x7d' :: r4 => some (.obj acc', r4)
        | _ => none
      | _ => none
    | _ => none

/-- Parse the items of a JSON array, accumulating parsed values. -/
def parseItems : Nat → List Char → List Json → Option (Json × List Char)
  | 0, _, _ => none
  | f + 1, cs, acc => do
    let (v, r1) ← parseValue f cs
    match skipWs r1 with
    | ',' :: r2 => parseItems f r2 (acc ++ [v])
    | ']' :: r2 => some (.arr (acc ++ [v]), r2)
    | _ => none

/-- Insert a parsed object field: if the key is already present its value
is replaced in place (property order keeps the first occurrence), else the
field is appended. -/
def insertField : List (String × Json) → String → Json →
    List (String × Json)
  | [], k, v => [(k, v)]
  | (k', v') :: fs, k, v =>
    if k' = k then (k', v) :: fs else (k', v') :: insertField fs k v

end

/-- The model of `JSON.parse`: parse one value and require only
whitespace after it. -/
def jsonParse (s : String) : Option Json :=
  match parseValue (s.length + 1) s.data with
  | some (j, rest) => if (skipWs rest).isEmpty then some j else none
  | none => none

/-- The greedy fallback extraction `rawContent.match(/\{[\s\S]*\}/)`: the
substring from the first `'\x7b'` of the text to the last `'\x7d'` after
it (regex `[\s\S]*` is greedy, so the match runs to the final closing
brace of the whole text, not to the balancing one). -/
def extractGreedy (s : String) : Option String :=
  match s.data.findIdx? (· = '\x7b') with
  | none => none
  | some i =>
    match (s.data.drop i).reverse.findIdx? (· = '\x7d') with
    | none => none
    | some k => some ⟨(s.data.drop i).take ((s.data.drop i).length - k)⟩

/-- The two parse failures thrown by `_triggerGmResponse`:
`"Unrecoverable JSON error"` (both parses failed) and
`"No JSON object found in response"` (no brace-bounded substring). -/
inductive ParseErr where
  | unrecoverable
  | noJsonFound
deriving DecidableEq, Repr

/-- Response Repair, parsing stage, as implemented (lines 335-352 of the
store): direct `JSON.parse`; on failure, `JSON.parse` of the greedy
first-brace-to-last-brace substring; on second failure (or no braces),
an unrecoverable error for the turn. -/
def repairParse (raw : String) : Except ParseErr Json :=
  match jsonParse raw with
  | some j => .ok j
  | none =>
    match extractGreedy raw with
    | some sub =>
      match jsonParse sub with
      | some j => .ok j
      | none => .error .unrecoverable
    | none => .error .noJsonFound

/-- Scan for the closing brace matching the opening brace that started
the scan (depth starts at 1 after consuming that opening brace),
returning the scanned characters including the matching brace. -/
def scanToMatch : List Char → Nat → List Char → Option (List Char)
  | [], _, _ => none
  | c :: cs, depth, acc =>
    if c = '\x7b' then scanToMatch cs (depth + 1) (c :: acc)
    else if c = '\x7d' then
      if depth = 1 then some (c :: acc).reverse
      else scanToMatch cs (depth - 1) (c :: acc)
    else scanToMatch cs depth (c :: acc)

/-- Modelled from the spec: Response Repair step (2) as the spec words
it, "the first substring bounded by an opening and the corresponding
closing brace" - i.e. the balanced brace span starting at the first
opening brace. -/
def extractBalanced (s : String) : Option String :=
  match s.data.findIdx? (· = '\x7b') with
  | none => none
  | some i =>
    match s.data.drop (i + 1) with
    | cs => (scanToMatch cs 1 ['\x7b']).map (fun l => ⟨l⟩)

/-- Modelled from the spec: the Response Repair parsing algorithm as the
spec states it, with the balanced-span extraction as the fallback. -/
def specRepairParse (raw : String) : Except ParseErr Json :=
  match jsonParse raw with
  | some j => .ok j
  | none =>
    match extractBalanced raw with
    | some sub =>
      match jsonParse sub with
      | some j => .ok j
      | none => .error .unrecoverable
    | none => .error .noJsonFound

/-- The roll request object of a Structured GM Response
(`gmResponse.roll_request`), fields read leniently as the dynamic code
does. -/
structure GmRollRequest where
  targetClassName : Option String
  diceType : Option String
  reason : Option String
deriving DecidableEq, Repr

/-- A Structured GM Response as consumed by the reconciler: the four
fields `_triggerGmResponse` reads off the parsed JSON. -/
structure GmResponse where
  narrative : Option String
  scene_image_prompt : Option String
  roll_request : Option GmRollRequest
  choices : Option (List (String × List String))
deriving DecidableEq, Repr

/-- Read a string-valued JSON node. -/
def asString : Json → Option String
  | .str s => some s
  | _ => none

/-- Property access `j.k` on a parsed JSON value: `none` when the value
is not an object or lacks the key. -/
def getField (j : Json) (k : String) : Option Json :=
  match j with
  | .obj fs => (fs.find? (fun kv => kv.1 = k)).map (fun kv => kv.2)
  | _ => none

/-- Read an optional string field of a parsed JSON object. -/
def fieldStr (j : Json) (k : String) : Option String :=
  (getField j k).bind asString

/-- Read the parsed JSON into the shape `_triggerGmResponse` consumes.
Falsy field values (`null`, `false`, `0`, `""`) behave exactly like
absent fields everywhere the code tests them, so they are mapped to
`none`; truthy non-object `roll_request` values behave like a roll
request without a usable `targetClassName`; `choices` values are assumed
to be objects mapping class labels to arrays of strings, the shape of a
Structured GM Response. -/
def toGmResponse (j : Json) : GmResponse where
  narrative := fieldStr j "narrative"
  scene_image_prompt := fieldStr j "scene_image_prompt"
  roll_request :=
    match getField j "roll_request" with
    | some v =>
      if jsTruthyJson v then
        some (match v with
          | .obj _ =>
            { targetClassName := fieldStr v "targetClassName"
              diceType := fieldStr v "diceType"
              reason := fieldStr v "reason" }
          | _ => { targetClassName := none, diceType := none, reason := none })
      else none
    | none => none
  choices :=
    match getField j "choices" with
    | some v =>
      if jsTruthyJson v then
        some (match v with
          | .obj fs =>
            fs.filterMap (fun kv =>
              match kv.2 with
              | .arr items => some (kv.1, items.filterMap asString)
              | _ => none)
          | _ => [])
      else none
    | none => none

/-- The model of `String.toLowerCase` (core `String.toLower` is not
used because its implementation does not reduce in the kernel; class
labels are ASCII, where `Char.toLower` agrees with JavaScript). -/
def strLower (s : String) : String :=
  ⟨s.data.map Char.toLower⟩

/-- Case-insensitive lookup in the choices map
(`Object.keys(...).find(k => k.toLowerCase() === playerClass.toLowerCase())`). -/
def findCI (m : List (String × List String)) (c : String) :
    Option (String × List String) :=
  m.find? (fun kv => strLower kv.1 = strLower c)

/-- The fixed ordered fallback pool used by the padding loop
(`defaults` in the source). -/
def padDefaults : List String :=
  ["Observe surroundings", "Ready weapon", "Discuss with party", "Search area"]

/-- One iteration of the padding loop body: the first pool entry not
already present, else `"Wait"`
(`defaults.find(d => !currentChoices.includes(d)) || "Wait"`). -/
def padStep (cur : List String) : String :=
  (padDefaults.find? (fun d => !cur.contains d)).getD "Wait"

/-- One pass of the padding loop: append the fallback entry when the
list is still short. -/
def padOnce (cur : List String) : List String :=
  if cur.length < 2 then cur ++ [padStep cur] else cur

/-- The padding loop `while (currentChoices.length < 2) push(...)`:
each iteration appends exactly one entry and the loop exits at length
two, so it runs at most twice. -/
def padTo2 (cur : List String) : List String :=
  padOnce (padOnce cur)

/-- Repair of the choices map for one class-bearing participant
(lines 362-376 of the store): find the case-insensitively matching key;
if absent, append the class label with an empty list; then pad the
list to two entries. -/
def repairOne (m : List (String × List String)) (pClass : String) :
    List (String × List String) :=
  match m.find? (fun kv => strLower kv.1 = strLower pClass) with
  | some kv =>
    if kv.2.length < 2 then
      m.map (fun kv' => if kv'.1 = kv.1 then (kv'.1, padTo2 kv.2) else kv')
    else m
  | none => m ++ [(pClass, padTo2 [])]

/-- JavaScript-truthy class label of a participant
(`const pClass = p.characterClass; if (!pClass) ...`). -/
def truthyClass (p : Player) : Option String :=
  jsTruthyStr p.characterClass

/-- One iteration of the `players.forEach` loop of the padding stage:
skip participants without a truthy class label. -/
def repairStep (m : List (String × List String)) (p : Player) :
    List (String × List String) :=
  match truthyClass p with
  | some c => repairOne m c
  | none => m

/-- Response Repair, padding stage (lines 354-378 of the store): when no
roll request is present, ensure a choices object exists and repair the
entry of every class-bearing participant in participant order. -/
def repairChoices (players : List Player) (g : GmResponse) : GmResponse :=
  if g.roll_request.isSome then g
  else
    { g with choices := some (players.foldl repairStep (g.choices.getD [])) }

/-- Whether the choices entry the padding stage finds for class `c` is
still short: the guard of the `while` padding loop, evaluated on the
choices map `m`. True when no entry exists (the created entry starts
empty). -/
def smallIn (m : List (String × List String)) (c : String) : Prop :=
  match findCI m c with
  | some kv => kv.2.length < 2
  | none => True

/-- The padding-stage guarantee for class `c` over the choices map `m`,
with shortness judged against the pre-repair map `m0`: a
case-insensitively matching entry exists with at least two entries, and
it is duplicate-free whenever the pre-repair entry was short or
absent. -/
def PropFull (m0 m : List (String × List String)) (c : String) : Prop :=
  ∃ k l, findCI m c = some (k, l) ∧ 2 ≤ l.length ∧ (smallIn m0 c → l.Nodup)

/-- A primitive write issued by the store against the backend. -/
inductive Write where
  | appendMsg (m : MsgData)
  | setScene (s : String)
  | setActiveRoll (r : RollRequest)
  | clearActiveRoll
  | setChoices (playerId : String) (cs : Option (List String))
deriving DecidableEq, Repr

/-- Whether a write appends a chat message. -/
def Write.isAppendMsg : Write → Bool
  | .appendMsg _ => true
  | _ => false

/-- The assistant chat message appended for the narrative text. -/
def gmNarrativeMsg (n : String) : MsgData :=
  { role := .assistant, content := n, senderName := some "GM", isAction := false }

/-- The truthy target class name of the response's roll request
(`gmResponse.roll_request?.targetClassName`). -/
def rollTargetName (g : GmResponse) : Option String :=
  g.roll_request.bind (fun rr => jsTruthyStr rr.targetClassName)

/-- The participant resolved by the roll request
(`players.find(p => p.characterClass === ...targetClassName)`). -/
def resolvedTarget (g : GmResponse) (players : List Player) : Option Player :=
  (rollTargetName g).bind
    (fun tcn => players.find? (fun p => p.characterClass = some tcn))

/-- The `activeRoll` value written by the roll-request branch, with the
`|| 'd20'` and `|| 'Check'` defaults. -/
def mkActiveRoll (g : GmResponse) (tp : Player) : RollRequest :=
  { playerId := tp.id
    playerName := tp.name
    diceType := (g.roll_request.bind (fun rr => jsTruthyStr rr.diceType)).getD "d20"
    reason := (g.roll_request.bind (fun rr => jsTruthyStr rr.reason)).getD "Check" }

/-- The choices list written for one participant by the choices branch:
the case-insensitive match, else the minimal two-item default. -/
def choicesFor (m : List (String × List String)) (c : String) : List String :=
  match findCI m c with
  | some kv => kv.2
  | none => ["Look around", "Wait"]

/-- The scene update of the batch
(`if (gmResponse.scene_image_prompt) batch.update(roomRef, {currentScene})`). -/
def sceneWrites (g : GmResponse) : List Write :=
  match jsTruthyStr g.scene_image_prompt with
  | some s => [Write.setScene s]
  | none => []

/-- The per-participant choices updates of the choices branch. -/
def choiceWrites (cmap : List (String × List String)) (players : List Player) :
    List Write :=
  players.filterMap (fun p =>
    (truthyClass p).map (fun c =>
      Write.setChoices p.id (some (choicesFor cmap c))))

/-- The branch part of the batch (lines 396-425 of the store): the
roll-request branch when `roll_request?.targetClassName` is truthy and
resolves to a participant by exact class equality; otherwise the choices
branch when a choices map is present; otherwise nothing. When a truthy
target class name resolves to no participant, neither branch emits a
write. -/
def branchWrites (g : GmResponse) (room : GameRoom) (players : List Player) :
    List Write :=
  match rollTargetName g with
  | some tcn =>
    match players.find? (fun p => p.characterClass = some tcn) with
    | some tp =>
      Write.setActiveRoll (mkActiveRoll g tp) ::
        players.map (fun p => Write.setChoices p.id none)
    | none => []
  | none =>
    match g.choices with
    | some cmap =>
      (if room.activeRoll.isSome then [Write.clearActiveRoll] else []) ++
        choiceWrites cmap players
    | none => []

/-- The batched portion of the reconciliation (lines 389-425 of the
store): the `writeBatch` holding the scene update and either the
roll-request branch or the choices branch. Listed in issue order. -/
def reconcileBatch (g : GmResponse) (room : GameRoom) (players : List Player) :
    List Write :=
  sceneWrites g ++ branchWrites g room players

/-- The full reconciliation of one validated response, as the list of
atomic commit units it issues in order: the narrative assistant message
is appended by its own `addDoc` (line 381) before the batch is built,
and the batch commits as the second unit (line 427). -/
def reconcileUnits (g : GmResponse) (room : GameRoom) (players : List Player) :
    List (List Write) :=
  (match jsTruthyStr g.narrative with
   | some n => [[Write.appendMsg (gmNarrativeMsg n)]]
   | none => []) ++
  [reconcileBatch g room players]

/-- The shared per-room state a write applies to: the room document, the
participant collection and the chat log. -/
structure RoomState where
  room : GameRoom
  players : List Player
  messages : List MsgData
deriving DecidableEq, Repr

/-- Effect of one write on the room document. -/
def applyWriteRoom (r : GameRoom) : Write → GameRoom
  | .setScene s => { r with currentScene := some s }
  | .setActiveRoll rr => { r with activeRoll := some rr }
  | .clearActiveRoll => { r with activeRoll := none }
  | _ => r

/-- Effect of one write on one participant document. -/
def applyWritePlayer (w : Write) (p : Player) : Player :=
  match w with
  | .setChoices pid cs => if p.id = pid then { p with choices := cs } else p
  | _ => p

/-- Effect of one write on the chat log. -/
def applyWriteMsgs (ms : List MsgData) : Write → List MsgData
  | .appendMsg m => ms ++ [m]
  | _ => ms

/-- Effect of one write on the shared state. -/
def applyWrite (s : RoomState) (w : Write) : RoomState :=
  { room := applyWriteRoom s.room w
    players := s.players.map (applyWritePlayer w)
    messages := applyWriteMsgs s.messages w }

/-- Apply a list of writes in order. -/
def applyWrites (s : RoomState) (ws : List Write) : RoomState :=
  ws.foldl applyWrite s

/-- Apply a list of atomic units in order. -/
def applyUnits (s : RoomState) (us : List (List Write)) : RoomState :=
  applyWrites s us.flatten

/-- Model of `setDoc` on the participant collection: replace the document with
this id if present, else add it. -/
def putPlayer (players : List Player) (p : Player) : List Player :=
  if players.any (fun q => q.id = p.id) then
    players.map (fun q => if q.id = p.id then p else q)
  else players ++ [p]

/-- Operation `createCharacter`: guard on room capacity, write the new player with
`isReady: false` and `choices: null`, and append the join system message
on first entry. -/
def createCharacterOp (s : RoomState) (pid name : String)
    (avatar : Option String) (cclass : Option String)
    (stats : List (String × Int)) : RoomState :=
  if 4 ≤ s.players.length ∧ ¬ s.players.any (fun p => p.id = pid) then s
  else
    let newPlayer : Player :=
      { id := pid, name := name, avatar := avatar, characterClass := cclass
        stats := stats, isReady := false, choices := none }
    let joined := ¬ s.players.any (fun p => p.id = pid)
    { s with
      players := putPlayer s.players newPlayer
      messages := if joined then
          s.messages ++
            [{ role := .system
               content := name ++ " (" ++ cclass.getD "" ++ ") has joined."
               senderName := none, isAction := false }]
        else s.messages }

/-- Operation `setReadyState`: update the caller's `isReady` flag. -/
def setReadyOp (s : RoomState) (pid : String) (isReady : Bool) : RoomState :=
  { s with players := s.players.map (fun p =>
      if p.id = pid then { p with isReady := isReady } else p) }

/-- Operation `startGame`: set the room status to playing. -/
def startGameOp (s : RoomState) : RoomState :=
  { s with room := { s.room with gameStatus := .playing } }

/-- The chat message written by `sendMessage`. -/
def userMsg (s : RoomState) (pid prompt : String) (isAction : Bool) : MsgData :=
  { role := .user
    content := prompt
    senderName := some (((s.players.find? (fun p => p.id = pid)).map
      (fun p => p.name)).getD "Player")
    isAction := isAction }

/-- The shared-state effect of `sendMessage` once its session guards
passed: append one user message; when it is an action, clear the
caller's own choices. -/
def sendMessageRoomOp (s : RoomState) (pid prompt : String)
    (isAction : Bool) : RoomState :=
  let s1 := { s with messages := s.messages ++ [userMsg s pid prompt isAction] }
  if isAction then
    { s1 with players := s1.players.map (fun p =>
        if p.id = pid then { p with choices := none } else p) }
  else s1

/-- Remove the first occurrence of `'d'`
(`rollReq.diceType.replace('d', '')` with a string pattern replaces only
the first occurrence). -/
def removeFirstD : List Char → List Char
  | [] => []
  | c :: cs => if c = 'd' then cs else c :: removeFirstD cs

/-- Consume an optional leading sign, as `parseInt` does. -/
def parseSign : List Char → Bool × List Char
  | '-' :: r => (true, r)
  | '+' :: r => (false, r)
  | cs => (false, cs)

/-- The model of JavaScript `parseInt(s)` (radix 10): skip leading
whitespace, optional sign, then the longest leading digit run; `none`
is `NaN`. Trailing junk is ignored, as `parseInt` does. -/
def jsParseInt (s : String) : Option Int :=
  let sr := parseSign (skipWs s.data)
  let ds := sr.2.takeWhile Char.isDigit
  if ds.isEmpty then none
  else
    let n : Int := Int.ofNat (digitsToNat ds)
    some (if sr.1 then -n else n)

/-- The face count `parseInt(rollReq.diceType.replace('d', '')) || 20`:
`NaN` and `0` are falsy and default to 20. -/
def diceFaces (diceType : String) : Int :=
  match jsParseInt ⟨removeFirstD diceType.data⟩ with
  | none => 20
  | some n => if n = 0 then 20 else n

/-- Model of `Math.floor(Math.random() * max) + 1` with the uniform draw
represented exactly as the rational `u / d` (`0 ≤ u < d`). -/
def rollResult (faces : Int) (u d : Nat) : Int :=
  Int.fdiv ((u : Int) * faces) (d : Int) + 1

/-- The dice-roll chat message written by `performRoll`. -/
def rollMsg (rr : RollRequest) (u d : Nat) : MsgData :=
  { role := .user
    content := "[Dice Roll] " ++ rr.reason ++ ": Rolled a " ++
      toString (rollResult (diceFaces rr.diceType) u d) ++ " (" ++ rr.diceType ++ ")"
    senderName := some "System"
    isAction := true }

/-- Operation `performRoll`: append the action-tagged dice-roll message, then
delete `Room.activeRoll` (two separate writes in the source, composed
here as one transition). -/
def performRollOp (s : RoomState) (rr : RollRequest) (u d : Nat) : RoomState :=
  { s with
    messages := s.messages ++ [rollMsg rr u d]
    room := { s.room with activeRoll := none } }

/-- One orchestration turn's shared-state effect for a validated
response: Response Repair's padding stage followed by the two commit
units of the State Reconciler. -/
def gmTurnOp (s : RoomState) (g : GmResponse) : RoomState :=
  let g' := repairChoices s.players g
  applyUnits s (reconcileUnits g' s.room s.players)

/-- The room document as `createRoom` writes it. -/
def initRoom (roomId hostId : String) : RoomState :=
  { room :=
      { id := roomId, hostId := hostId, gameStatus := .lobby
        activeRoll := none
        currentScene := some "ancient mysterious map, parchment, table top view, dnd mood" }
    players := []
    messages := [] }

/-- The shared-state transitions the store can issue against a room. -/
inductive Step : RoomState → RoomState → Prop
  | createCharacter (s : RoomState) (pid name : String) (avatar : Option String)
      (cclass : Option String) (stats : List (String × Int)) :
      Step s (createCharacterOp s pid name avatar cclass stats)
  | setReady (s : RoomState) (pid : String) (b : Bool) :
      Step s (setReadyOp s pid b)
  | startGame (s : RoomState) : Step s (startGameOp s)
  | sendMessage (s : RoomState) (pid prompt : String) (isAction : Bool) :
      Step s (sendMessageRoomOp s pid prompt isAction)
  | performRoll (s : RoomState) (rr : RollRequest) (u d : Nat) :
      Step s (performRollOp s rr u d)
  | gmTurn (s : RoomState) (g : GmResponse) : Step s (gmTurnOp s g)

/-- Reachability of a shared room state from room creation. -/
def Reachable (init s : RoomState) : Prop :=
  Relation.ReflTransGen Step init s

/-- The cross-entity invariant of claim C4: a pending roll excludes
populated choice lists. -/
def RollChoicesInv (s : RoomState) : Prop :=
  s.room.activeRoll.isSome → ∀ p ∈ s.players, p.choices = none

/-- The session-local store state of one connected process: the latest
room/participant/chat snapshots plus the session identity and the
orchestration in-flight flag. -/
structure SessionState where
  room : Option GameRoom
  playerId : Option String
  players : List Player
  messages : List MsgData
  isAiThinking : Bool
deriving DecidableEq, Repr

/-- Whitespace characters stripped by `prompt.trim()` (the common
ASCII whitespace; the JS set additionally holds rare Unicode spaces). -/
def jsWs (c : Char) : Bool :=
  c = ' ' || c = '\t' || c = '\n' || c = '\r'

/-- The characters of `prompt.trim()`: whitespace removed from both
ends. -/
def jsTrim (s : String) : List Char :=
  ((s.data.dropWhile jsWs).reverse.dropWhile jsWs).reverse

/-- Operation `sendMessage(prompt, isAction)` (lines 246-262 of the store): guard
on room, identity and non-blank prompt; append one user message; when it
is an action, clear the caller's own choices. -/
def sendMessage (s : SessionState) (prompt : String) (isAction : Bool) :
    SessionState :=
  match s.room, s.playerId with
  | some _, some pid =>
    if (jsTrim prompt).isEmpty then s
    else
      let shared := sendMessageRoomOp ⟨s.room.getD (initRoom "" "").room,
        s.players, s.messages⟩ pid prompt isAction
      { s with players := shared.players, messages := shared.messages }
  | _, _ => s

/-- The system chat message appended by the catch block of
`_triggerGmResponse`. -/
def gmErrorMsg : MsgData :=
  { role := .system
    content := "(GM Error: The spirits are confused. Please try acting again.)"
    senderName := none
    isAction := false }

/-- The body of the `try` block of `_triggerGmResponse`, from the
narration-service call onward: a network failure (`.error` service
outcome) or a parse failure propagates as an exception; otherwise the
repaired response is reconciled. -/
def gmTurnBody (s : SessionState) (room : GameRoom)
    (svc : Except Unit String) : Except Unit SessionState :=
  match svc with
  | .error e => .error e
  | .ok raw =>
    match repairParse raw with
    | .error _ => .error ()
    | .ok j =>
      let shared := gmTurnOp ⟨room, s.players, s.messages⟩ (toGmResponse j)
      .ok { s with
        room := some shared.room
        players := shared.players
        messages := shared.messages }

/-- Operation `_triggerGmResponse` (lines 284-439 of the store) with the
narration-service outcome supplied as a parameter: guard on room
presence, set the in-flight flag, run the try block, catch any turn
error by appending the visible system error message, and clear the
in-flight flag in the `finally` on every exit path. -/
def triggerGmResponse (s : SessionState) (svc : Except Unit String) :
    SessionState :=
  match s.room with
  | none => s
  | some room =>
    let s0 := { s with isAiThinking := true }
    let s1 :=
      match gmTurnBody s0 room svc with
      | .ok s' => s'
      | .error _ => { s0 with messages := s0.messages ++ [gmErrorMsg] }
    { s1 with isAiThinking := false }

/-- One chat-log refresh callback delivered to the subscription of
`joinRoom`: the length of the log prefix it observes, and the value of
the snapshot-dependent guard conjuncts
(`room && !room.activeRoll && room.hostId === myPid && !isAiThinking`)
at that moment. -/
structure Callback where
  len : Nat
  env : Bool
deriving DecidableEq, Repr

/-- The local memo of the trigger guard (`lastHandledMessageId`). -/
structure GuardState where
  lastHandledMessageId : Option String
deriving DecidableEq, Repr

/-- The trigger guard of the chat subscription callback (lines 189-204
of the store): fire an orchestration turn for the last message of the
observed snapshot iff it exists, is a user action, the environment
conjuncts hold, and its id differs from the memo. Returns the id of the
message the turn is attributed to. -/
def guardFires (log : List ChatMessage) (cb : Callback) (st : GuardState) :
    Option String :=
  match (log.take cb.len).getLast? with
  | none => none
  | some m =>
    if m.role = .user ∧ m.isAction = true ∧ cb.env = true ∧
        st.lastHandledMessageId ≠ some m.id then
      some m.id
    else none

/-- Run the guard over a sequence of chat-log refresh callbacks,
recording the memo updates and the ids of the fired turns. -/
def runGuard (log : List ChatMessage) (st : GuardState) :
    List Callback → GuardState × List String
  | [] => (st, [])
  | cb :: cbs =>
    match guardFires log cb st with
    | some i =>
      let r := runGuard log ⟨some i⟩ cbs
      (r.1, i :: r.2)
    | none => runGuard log st cbs

/-- The ids of the messages for which the guard fired a turn, in order. -/
def firedIds (log : List ChatMessage) (st : GuardState)
    (cbs : List Callback) : List String :=
  (runGuard log st cbs).2

/-- A write that only touches participant documents. -/
def Write.isPlayerWrite : Write → Bool
  | .setChoices _ _ => true
  | _ => false

/-- Claim C1 counterexample inputs: a validated response carrying both a
narrative text and a scene prompt, reconciled against an empty room. -/
def gC1 : GmResponse :=
  { narrative := some "The door creaks open."
    scene_image_prompt := some "dark corridor"
    roll_request := none
    choices := none }

def roomC1 : GameRoom :=
  { id := "r1", hostId := "h1", gameStatus := .playing
    activeRoll := none, currentScene := none }

/-- Claim C2 counterexample inputs: a response whose roll request names
a class (`"Wizard"`) matching no participant, together with a choices
map for the one participant (`"Fighter"`), against a room with a stale
active roll. -/
def fighterC2 : Player :=
  { id := "p1", name := "Ann", avatar := none
    characterClass := some "Fighter", stats := [], isReady := true
    choices := none }

def staleRollC2 : RollRequest :=
  { playerId := "p1", playerName := "Ann", diceType := "d20"
    reason := "stale check" }

def gC2 : GmResponse :=
  { narrative := none
    scene_image_prompt := none
    roll_request := some
      { targetClassName := some "Wizard", diceType := some "d20"
        reason := some "Spot check" }
    choices := some [("Fighter", ["Attack", "Defend"])] }

def sC2 : RoomState :=
  { room :=
      { id := "r1", hostId := "h1", gameStatus := .playing
        activeRoll := some staleRollC2, currentScene := none }
    players := [fighterC2]
    messages := [] }

/-- The session state used by the C8 and C10 witnesses. -/
def sessW : SessionState :=
  { room := some roomC1
    playerId := some "p1"
    players := [fighterC2]
    messages := []
    isAiThinking := false }

/-- Claim C6 counterexample input: two disjoint JSON objects in one raw
text. The greedy first-to-last-brace extraction spans both objects and
fails to parse, while the spec's balanced extraction parses the first
object. -/
def rawC6 : String := "a \x7b\"narrative\":\"x\"\x7d b \x7b\"y\":\"z\"\x7d c"

/-- The greedy substring the fallback extracts from `rawC6`. -/
def subC6 : String := "\x7b\"narrative\":\"x\"\x7d b \x7b\"y\":\"z\"\x7d"

/-- The concrete Response Repair test input of the spec. -/
def rawC5 : String :=
  "blah \x7b\"narrative\":\"x\",\"choices\":\x7b\"Fighter\":[\"a\"]\x7d\x7d blah"

/-- The Structured GM Response read off the parse of `rawC5`. -/
def gParsedC5 : GmResponse :=
  toGmResponse ((repairParse rawC5).toOption.getD .null)

/-- Claim C5 counterexample input: a choices map whose Fighter list
already has two entries, both equal. -/
def gC5 : GmResponse :=
  { narrative := some "x"
    scene_image_prompt := none
    roll_request := none
    choices := some [("Fighter", ["a", "a"])] }

@[simp] theorem jsTruthyStr_none : jsTruthyStr none = none := rfl

@[simp] theorem jsTruthyStr_some (s : String) :
    jsTruthyStr (some s) = if s.isEmpty then none else some s := rfl

theorem applyWrites_nil (s : RoomState) : applyWrites s [] = s := rfl

theorem applyWrites_cons (s : RoomState) (w : Write) (ws : List Write) :
    applyWrites s (w :: ws) = applyWrites (applyWrite s w) ws := rfl

theorem applyWrites_room (s : RoomState) (ws : List Write) :
    (applyWrites s ws).room = ws.foldl applyWriteRoom s.room := by
  induction ws generalizing s with
  | nil => rfl
  | cons w ws ih => simp [applyWrites_cons, ih, List.foldl_cons, applyWrite]

theorem applyWrites_players (s : RoomState) (ws : List Write) :
    (applyWrites s ws).players =
      s.players.map (fun p => ws.foldl (fun q w => applyWritePlayer w q) p) := by
  induction ws generalizing s with
  | nil => simp [applyWrites_nil]
  | cons w ws ih =>
    simp [applyWrites_cons, ih, List.foldl_cons, applyWrite, List.map_map]

theorem applyWrites_messages (s : RoomState) (ws : List Write) :
    (applyWrites s ws).messages = ws.foldl applyWriteMsgs s.messages := by
  induction ws generalizing s with
  | nil => rfl
  | cons w ws ih => simp [applyWrites_cons, ih, List.foldl_cons, applyWrite]

theorem applyWriteRoom_of_isPlayerWrite (r : GameRoom) (w : Write)
    (h : w.isPlayerWrite = true) : applyWriteRoom r w = r := by
  cases w <;> simp_all [Write.isPlayerWrite, applyWriteRoom]

theorem foldl_room_of_playerWrites (r : GameRoom) (ws : List Write)
    (h : ∀ w ∈ ws, w.isPlayerWrite = true) :
    ws.foldl applyWriteRoom r = r := by
  induction ws generalizing r with
  | nil => rfl
  | cons w ws ih =>
    rw [List.foldl_cons, applyWriteRoom_of_isPlayerWrite r w (h w (by simp))]
    exact ih r (fun w' hw' => h w' (by simp [hw']))

theorem applyWritePlayer_of_not_setChoices (w : Write) (p : Player)
    (h : w.isPlayerWrite = false) : applyWritePlayer w p = p := by
  cases w <;> simp_all [Write.isPlayerWrite, applyWritePlayer]

/-- After folding the clear-choices writes generated from `l` over a
player whose id occurs in `l` (or whose choices are already cleared),
the choices are cleared. -/
theorem foldl_clearChoices (l : List Player) (p : Player)
    (h : p.id ∈ l.map Player.id ∨ p.choices = none) :
    ((l.map (fun q => Write.setChoices q.id none)).foldl
      (fun q w => applyWritePlayer w q) p).choices = none := by
  induction l generalizing p with
  | nil =>
    rcases h with h | h
    · simp at h
    · simpa using h
  | cons q l ih =>
    simp only [List.map_cons, List.foldl_cons, applyWritePlayer]
    by_cases hpq : p.id = q.id
    · simp only [hpq, if_pos rfl]
      exact ih _ (Or.inr rfl)
    · simp only [if_neg hpq]
      apply ih
      rcases h with h | h
      · simp only [List.map_cons, List.mem_cons] at h
        rcases h with h | h
        · exact absurd h hpq
        · exact Or.inl h
      · exact Or.inr h

theorem sceneWrites_room_activeRoll (g : GmResponse) (r : GameRoom) :
    ((sceneWrites g).foldl applyWriteRoom r).activeRoll = r.activeRoll := by
  unfold sceneWrites
  cases jsTruthyStr g.scene_image_prompt <;> simp [applyWriteRoom]

theorem sceneWrites_player (g : GmResponse) (p : Player) :
    (sceneWrites g).foldl (fun q w => applyWritePlayer w q) p = p := by
  unfold sceneWrites
  cases jsTruthyStr g.scene_image_prompt <;> simp [applyWritePlayer]

theorem choiceWrites_playerWrites (cmap : List (String × List String))
    (players : List Player) :
    ∀ w ∈ choiceWrites cmap players, w.isPlayerWrite = true := by
  intro w hw
  unfold choiceWrites at hw
  rw [List.mem_filterMap] at hw
  obtain ⟨p, _, hp⟩ := hw
  cases h : truthyClass p <;> rw [h] at hp <;> simp at hp
  rw [← hp]
  rfl

theorem choiceWrites_cons (cmap : List (String × List String)) (p : Player)
    (l : List Player) :
    choiceWrites cmap (p :: l) =
      (match truthyClass p with
       | some c => [Write.setChoices p.id (some (choicesFor cmap c))]
       | none => []) ++ choiceWrites cmap l := by
  unfold choiceWrites
  rw [List.filterMap_cons]
  cases hc : truthyClass p <;> simp [hc]

/-- Folding the choices-branch writes over a player whose id does not
occur in the generating list leaves the player unchanged. -/
theorem choiceWrites_foldl_notMem (cmap : List (String × List String))
    (l : List Player) (q : Player) (h : q.id ∉ l.map Player.id) :
    (choiceWrites cmap l).foldl (fun p w => applyWritePlayer w p) q = q := by
  induction l with
  | nil => rfl
  | cons p l ih =>
    simp only [List.map_cons, List.mem_cons, not_or] at h
    rw [choiceWrites_cons]
    cases hc : truthyClass p
    · simp only [hc]
      exact ih h.2
    · simp only [hc, List.singleton_append, List.foldl_cons, applyWritePlayer,
        if_neg h.1]
      exact ih h.2

/-- Folding the choices-branch writes over a member of the generating
list (with pairwise-distinct ids) sets exactly the member's own choices,
to the case-insensitive map entry or the two-item default. -/
theorem choiceWrites_foldl_mem (cmap : List (String × List String))
    (l : List Player) (q : Player) (hnd : (l.map Player.id).Nodup)
    (hq : q ∈ l) :
    (choiceWrites cmap l).foldl (fun p w => applyWritePlayer w p) q =
      (match truthyClass q with
       | some c => { q with choices := some (choicesFor cmap c) }
       | none => q) := by
  induction l with
  | nil => simp at hq
  | cons p l ih =>
    simp only [List.map_cons, List.nodup_cons] at hnd
    rw [choiceWrites_cons]
    rcases List.mem_cons.mp hq with rfl | hmem
    · cases hc : truthyClass q
      · simp only [hc, List.nil_append]
        exact choiceWrites_foldl_notMem cmap l q hnd.1
      · simp only [hc, List.singleton_append, List.foldl_cons,
          applyWritePlayer, if_pos rfl]
        exact choiceWrites_foldl_notMem cmap l _ hnd.1
    · have hne : q.id ≠ p.id := by
        intro he
        exact hnd.1 (he ▸ List.mem_map_of_mem Player.id hmem)
      cases hc : truthyClass p
      · simp only [hc, List.nil_append]
        exact ih hnd.2 hmem
      · simp only [hc, List.singleton_append, List.foldl_cons,
          applyWritePlayer, if_neg hne]
        exact ih hnd.2 hmem

theorem isAppendMsg_false_of_playerWrite (w : Write)
    (h : w.isPlayerWrite = true) : w.isAppendMsg = false := by
  cases w <;> simp_all [Write.isPlayerWrite, Write.isAppendMsg]

theorem clearWrites_playerWrites (l : List Player) :
    ∀ w ∈ l.map (fun p => Write.setChoices p.id none),
      w.isPlayerWrite = true := by
  intro w hw
  rw [List.mem_map] at hw
  obtain ⟨p, _, rfl⟩ := hw
  rfl

/-- No write of the reconciliation batch appends a chat message: the
narrative assistant message is not part of the atomic batch. -/
theorem reconcileBatch_no_appendMsg (g : GmResponse) (room : GameRoom)
    (players : List Player) :
    ∀ w ∈ reconcileBatch g room players, w.isAppendMsg = false := by
  intro w hw
  unfold reconcileBatch sceneWrites branchWrites at hw
  rcases List.mem_append.mp hw with h | h
  · split at h
    · rw [List.mem_singleton] at h
      subst h
      rfl
    · simp at h
  · split at h
    · split at h
      · rcases List.mem_cons.mp h with h2 | h2
        · subst h2
          rfl
        · exact isAppendMsg_false_of_playerWrite w
            (clearWrites_playerWrites players w h2)
      · simp at h
    · split at h
      · rcases List.mem_append.mp h with h2 | h2
        · split at h2
          · rw [List.mem_singleton] at h2
            subst h2
            rfl
          · simp at h2
        · exact isAppendMsg_false_of_playerWrite w
            (choiceWrites_playerWrites _ players w h2)
      · simp at h

/-- Claim C1 is false on the code: for a response with both narrative
and scene prompt, the reconciliation issues two separate commit units -
the narrative is appended by its own write before the batch commits -
so it is not a single atomic multi-write and the narrative is observable
without the scene update. -/
theorem C1_counterexample :
    reconcileUnits gC1 roomC1 [] =
      [[Write.appendMsg (gmNarrativeMsg "The door creaks open.")],
        [Write.setScene "dark corridor"]] ∧
      (reconcileUnits gC1 roomC1 []).length ≠ 1 := by
  decide

/-- Claim C1 (amended): the State Reconciler applies the
`Room.currentScene`, `activeRoll` and participant-choices writes as one
atomic batch, but when narrative text is present it is appended as a
separate chat write committed before that batch, so the narrative can be
observed without the rest of the reconciliation having been applied. -/
theorem C1_narrative_outside_batch (g : GmResponse) (room : GameRoom)
    (players : List Player) :
    ∃ batch,
      reconcileUnits g room players =
        (match jsTruthyStr g.narrative with
         | some n => [[Write.appendMsg (gmNarrativeMsg n)]]
         | none => []) ++ [batch] ∧
      ∀ w ∈ batch, w.isAppendMsg = false :=
  ⟨reconcileBatch g room players, rfl,
    reconcileBatch_no_appendMsg g room players⟩

theorem clearPart_foldl_player (b : Bool) (p : Player) :
    ((if b then [Write.clearActiveRoll] else []).foldl
      (fun q w => applyWritePlayer w q) p) = p := by
  cases b <;> simp [applyWritePlayer]

theorem setActiveRoll_player (r : RollRequest) (p : Player) :
    applyWritePlayer (Write.setActiveRoll r) p = p := rfl

/-- Claim C2 is false on the code: the response's roll request resolves
to no participant, so per the claim the choices branch should clear the
stale `Room.activeRoll` and set the Fighter's choices from the map;
instead the reconciliation leaves the stale roll in place and never
touches the participant (the `else if` chain skips both branches). -/
theorem C2_counterexample :
    resolvedTarget gC2 sC2.players = none ∧
    (gmTurnOp sC2 gC2).room.activeRoll = some staleRollC2 ∧
    (gmTurnOp sC2 gC2).players = [fighterC2] := by
  decide

/-- Claim C2 (amended): the roll-request branch applies exactly when the
roll request's truthy target class name matches some participant's class
by exact string equality, setting `Room.activeRoll` from the first such
participant (with `d20`/`Check` defaults) and clearing every
participant's choices while ignoring the choices map; the choices branch
applies exactly when the response has no truthy target class name and a
choices map is present, clearing a stale `Room.activeRoll` and setting
each class-bearing participant's choices to the case-insensitive map
entry or the two-item default; and when a truthy target class name
matches no participant, neither branch applies - the stale roll and all
choices are left untouched. -/
theorem C2_branch_selection (g : GmResponse) (s : RoomState)
    (hnd : (s.players.map Player.id).Nodup) :
    (∀ tp, resolvedTarget g s.players = some tp →
      (applyWrites s (reconcileBatch g s.room s.players)).room.activeRoll =
          some (mkActiveRoll g tp) ∧
        ∀ p ∈ (applyWrites s (reconcileBatch g s.room s.players)).players,
          p.choices = none) ∧
    (resolvedTarget g s.players = none → rollTargetName g ≠ none →
      (applyWrites s (reconcileBatch g s.room s.players)).room.activeRoll =
          s.room.activeRoll ∧
        (applyWrites s (reconcileBatch g s.room s.players)).players =
          s.players) ∧
    (∀ cmap, rollTargetName g = none → g.choices = some cmap →
      (applyWrites s (reconcileBatch g s.room s.players)).room.activeRoll =
          none ∧
        (applyWrites s (reconcileBatch g s.room s.players)).players =
          s.players.map (fun p =>
            match truthyClass p with
            | some c => { p with choices := some (choicesFor cmap c) }
            | none => p)) ∧
    (rollTargetName g = none → g.choices = none →
      (applyWrites s (reconcileBatch g s.room s.players)).room.activeRoll =
          s.room.activeRoll ∧
        (applyWrites s (reconcileBatch g s.room s.players)).players =
          s.players) := by
  refine ⟨?_, ?_, ?_, ?_⟩
  · intro tp hres
    obtain ⟨tcn, htcn, hfind⟩ := Option.bind_eq_some.mp hres
    have hbr : branchWrites g s.room s.players =
        Write.setActiveRoll (mkActiveRoll g tp) ::
          s.players.map (fun p => Write.setChoices p.id none) := by
      unfold branchWrites
      simp only [htcn, hfind]
    constructor
    · rw [applyWrites_room]
      unfold reconcileBatch
      rw [List.foldl_append, hbr, List.foldl_cons]
      rw [foldl_room_of_playerWrites _ _ (clearWrites_playerWrites s.players)]
      rfl
    · intro p hp
      rw [applyWrites_players] at hp
      rw [List.mem_map] at hp
      obtain ⟨q, hq, rfl⟩ := hp
      unfold reconcileBatch
      rw [List.foldl_append, sceneWrites_player, hbr, List.foldl_cons,
        setActiveRoll_player]
      exact foldl_clearChoices s.players q
        (Or.inl (List.mem_map_of_mem Player.id hq))
  · intro hres hne
    obtain ⟨tcn, htcn⟩ := Option.ne_none_iff_exists'.mp hne
    have hfind : s.players.find? (fun p => p.characterClass = some tcn) =
        none := by
      cases hf : s.players.find? (fun p => p.characterClass = some tcn) with
      | none => rfl
      | some tp =>
        rw [resolvedTarget, htcn] at hres
        simp [hf] at hres
    have hbr : branchWrites g s.room s.players = [] := by
      unfold branchWrites
      simp only [htcn, hfind]
    constructor
    · rw [applyWrites_room]
      unfold reconcileBatch
      rw [List.foldl_append, hbr, List.foldl_nil, sceneWrites_room_activeRoll]
    · rw [applyWrites_players]
      unfold reconcileBatch
      rw [hbr, List.append_nil]
      simp only [sceneWrites_player, List.map_id']
  · intro cmap htcn hc
    have hbr : branchWrites g s.room s.players =
        (if s.room.activeRoll.isSome then [Write.clearActiveRoll] else []) ++
          choiceWrites cmap s.players := by
      unfold branchWrites
      simp only [htcn, hc]
    constructor
    · rw [applyWrites_room]
      unfold reconcileBatch
      rw [List.foldl_append, hbr, List.foldl_append]
      rw [foldl_room_of_playerWrites _ _ (choiceWrites_playerWrites cmap s.players)]
      by_cases hr : s.room.activeRoll.isSome
      · rw [if_pos hr, List.foldl_cons, List.foldl_nil]
        rfl
      · rw [if_neg hr, List.foldl_nil, sceneWrites_room_activeRoll]
        exact Option.not_isSome_iff_eq_none.mp hr
    · rw [applyWrites_players]
      unfold reconcileBatch
      rw [hbr]
      apply List.map_congr_left
      intro q hq
      rw [List.foldl_append, sceneWrites_player, List.foldl_append,
        clearPart_foldl_player]
      exact choiceWrites_foldl_mem cmap s.players q hnd hq
  · intro htcn hc
    have hbr : branchWrites g s.room s.players = [] := by
      unfold branchWrites
      simp only [htcn, hc]
    constructor
    · rw [applyWrites_room]
      unfold reconcileBatch
      rw [List.foldl_append, hbr, List.foldl_nil, sceneWrites_room_activeRoll]
    · rw [applyWrites_players]
      unfold reconcileBatch
      rw [hbr, List.append_nil]
      simp only [sceneWrites_player, List.map_id']

/-- Witness for claim C2 (amended), at the counterexample inputs: the
unresolved-roll case leaves the stale roll and the participants
untouched. -/
theorem C2_branch_selection_witness :
    (applyWrites sC2 (reconcileBatch gC2 sC2.room sC2.players)).room.activeRoll
        = sC2.room.activeRoll ∧
      (applyWrites sC2 (reconcileBatch gC2 sC2.room sC2.players)).players =
        sC2.players :=
  (C2_branch_selection gC2 sC2 (by decide)).2.1 (by decide) (by decide)

theorem reconcileUnits_flatten (g : GmResponse) (room : GameRoom)
    (players : List Player) :
    (reconcileUnits g room players).flatten =
      (match jsTruthyStr g.narrative with
       | some n => [Write.appendMsg (gmNarrativeMsg n)]
       | none => []) ++ reconcileBatch g room players := by
  unfold reconcileUnits
  cases jsTruthyStr g.narrative <;> simp

theorem applyWritePlayer_appendMsg (m : MsgData) (p : Player) :
    applyWritePlayer (Write.appendMsg m) p = p := rfl

theorem putPlayer_mem (players : List Player) (np q : Player)
    (hq : q ∈ putPlayer players np) : q = np ∨ q ∈ players := by
  unfold putPlayer at hq
  split at hq
  · rw [List.mem_map] at hq
    obtain ⟨r, hr, rfl⟩ := hq
    by_cases hid : r.id = np.id
    · exact Or.inl (by simp [hid])
    · exact Or.inr (by simp [hid, hr])
  · rcases List.mem_append.mp hq with h | h
    · exact Or.inr h
    · exact Or.inl (List.mem_singleton.mp h)

/-- The choices branch always ends with `Room.activeRoll` cleared. -/
theorem choicesBranch_activeRoll_none (g : GmResponse) (st : RoomState)
    (room : GameRoom) (players : List Player) (cmap : List (String × List String))
    (hroom : st.room = room) (htcn : rollTargetName g = none)
    (hc : g.choices = some cmap) :
    (applyWrites st (reconcileBatch g room players)).room.activeRoll = none := by
  have hbr : branchWrites g room players =
      (if room.activeRoll.isSome then [Write.clearActiveRoll] else []) ++
        choiceWrites cmap players := by
    unfold branchWrites
    simp only [htcn, hc]
  rw [applyWrites_room]
  unfold reconcileBatch
  rw [List.foldl_append, hbr, List.foldl_append]
  rw [foldl_room_of_playerWrites _ _ (choiceWrites_playerWrites cmap players)]
  by_cases hr : room.activeRoll.isSome
  · rw [if_pos hr, List.foldl_cons, List.foldl_nil]
    rfl
  · rw [if_neg hr, List.foldl_nil, sceneWrites_room_activeRoll, hroom]
    exact Option.not_isSome_iff_eq_none.mp hr

/-- Applying a reconciliation batch computed from the current snapshot
preserves the roll/choices exclusion invariant. -/
theorem reconcileBatch_inv (g : GmResponse) (st : RoomState)
    (hs : st.room.activeRoll.isSome = true → ∀ p ∈ st.players, p.choices = none) :
    RollChoicesInv (applyWrites st (reconcileBatch g st.room st.players)) := by
  cases hres : resolvedTarget g st.players with
  | some tp =>
    obtain ⟨tcn, htcn, hfind⟩ := Option.bind_eq_some.mp hres
    have hbr : branchWrites g st.room st.players =
        Write.setActiveRoll (mkActiveRoll g tp) ::
          st.players.map (fun p => Write.setChoices p.id none) := by
      unfold branchWrites
      simp only [htcn, hfind]
    intro _ p hp
    rw [applyWrites_players] at hp
    obtain ⟨q, hq, rfl⟩ := List.mem_map.mp hp
    unfold reconcileBatch
    rw [List.foldl_append, sceneWrites_player, hbr, List.foldl_cons,
      setActiveRoll_player]
    exact foldl_clearChoices st.players q
      (Or.inl (List.mem_map_of_mem Player.id hq))
  | none =>
    cases htcn : rollTargetName g with
    | some tcn =>
      have hfind : st.players.find? (fun p => p.characterClass = some tcn) =
          none := by
        cases hf : st.players.find? (fun p => p.characterClass = some tcn) with
        | none => rfl
        | some tp =>
          rw [resolvedTarget, htcn] at hres
          simp [hf] at hres
      have hbr : branchWrites g st.room st.players = [] := by
        unfold branchWrites
        simp only [htcn, hfind]
      intro hroll p hp
      rw [applyWrites_room] at hroll
      unfold reconcileBatch at hroll hp
      rw [List.foldl_append, hbr, List.foldl_nil,
        sceneWrites_room_activeRoll] at hroll
      rw [applyWrites_players] at hp
      obtain ⟨q, hq, rfl⟩ := List.mem_map.mp hp
      rw [hbr, List.append_nil, sceneWrites_player]
      exact hs hroll q hq
    | none =>
      cases hc : g.choices with
      | some cmap =>
        intro hroll _ _
        rw [choicesBranch_activeRoll_none g st st.room st.players cmap rfl
          htcn hc] at hroll
        simp at hroll
      | none =>
        have hbr : branchWrites g st.room st.players = [] := by
          unfold branchWrites
          simp only [htcn, hc]
        intro hroll p hp
        rw [applyWrites_room] at hroll
        unfold reconcileBatch at hroll hp
        rw [List.foldl_append, hbr, List.foldl_nil,
          sceneWrites_room_activeRoll] at hroll
        rw [applyWrites_players] at hp
        obtain ⟨q, hq, rfl⟩ := List.mem_map.mp hp
        rw [hbr, List.append_nil, sceneWrites_player]
        exact hs hroll q hq

/-- One orchestration turn preserves the roll/choices exclusion
invariant. -/
theorem gmTurnOp_inv (s : RoomState) (g : GmResponse)
    (hs : RollChoicesInv s) : RollChoicesInv (gmTurnOp s g) := by
  show RollChoicesInv (applyWrites s
    (reconcileUnits (repairChoices s.players g) s.room s.players).flatten)
  rw [reconcileUnits_flatten]
  cases hn : jsTruthyStr (repairChoices s.players g).narrative with
  | none =>
    rw [List.nil_append]
    exact reconcileBatch_inv _ s hs
  | some n =>
    rw [List.singleton_append, applyWrites_cons]
    have hroom : (applyWrite s (Write.appendMsg (gmNarrativeMsg n))).room =
        s.room := rfl
    have hpl : (applyWrite s (Write.appendMsg (gmNarrativeMsg n))).players =
        s.players := by
      show s.players.map (applyWritePlayer (Write.appendMsg (gmNarrativeMsg n)))
        = s.players
      have h1 : s.players.map
          (applyWritePlayer (Write.appendMsg (gmNarrativeMsg n))) =
            s.players.map (fun p => p) := List.map_congr_left (fun p _ => rfl)
      rw [h1, List.map_id']
    have := reconcileBatch_inv (repairChoices s.players g)
      (applyWrite s (Write.appendMsg (gmNarrativeMsg n)))
      (by rw [hroom, hpl]; exact hs)
    rw [hroom, hpl] at this
    exact this

theorem rollChoicesInv_init (roomId hostId : String) :
    RollChoicesInv (initRoom roomId hostId) := by
  intro _ p hp
  simp [initRoom] at hp

/-- Every store operation preserves the roll/choices exclusion
invariant. -/
theorem step_preserves_inv (s s' : RoomState) (hstep : Step s s')
    (hs : RollChoicesInv s) : RollChoicesInv s' := by
  cases hstep with
  | createCharacter pid name avatar cclass stats =>
    unfold createCharacterOp
    split
    · exact hs
    · intro hroll p hp
      rcases putPlayer_mem s.players _ p hp with rfl | hp2
      · rfl
      · exact hs hroll p hp2
  | setReady pid b =>
    intro hroll p hp
    obtain ⟨q, hq, rfl⟩ := List.mem_map.mp hp
    have := hs hroll q hq
    by_cases hid : q.id = pid <;> simp [hid, this]
  | startGame =>
    intro hroll p hp
    exact hs hroll p hp
  | sendMessage pid prompt isAction =>
    unfold sendMessageRoomOp
    cases isAction
    · intro hroll p hp
      exact hs hroll p hp
    · intro hroll p hp
      simp only at hp
      obtain ⟨q, hq, rfl⟩ := List.mem_map.mp hp
      have := hs hroll q hq
      by_cases hid : q.id = pid <;> simp [hid, this]
  | performRoll rr u d =>
    intro hroll
    simp [performRollOp] at hroll
  | gmTurn g =>
    exact gmTurnOp_inv s g hs

/-- Claim C4: in every room state reachable from room creation through
the store's operations, a set `Room.activeRoll` implies every
participant's choices are cleared; and resolving a roll (`performRoll`)
leaves every participant document - hence every choices list -
untouched. -/
theorem C4_activeRoll_excludes_choices :
    (∀ (roomId hostId : String) (s : RoomState),
        Reachable (initRoom roomId hostId) s → RollChoicesInv s) ∧
      ∀ (s : RoomState) (rr : RollRequest) (u d : Nat),
        (performRollOp s rr u d).players = s.players := by
  constructor
  · intro roomId hostId s hreach
    induction hreach with
    | refl => exact rollChoicesInv_init roomId hostId
    | tail _ hstep ih => exact step_preserves_inv _ _ hstep ih
  · intro s rr u d
    rfl

/-- Witness for claim C4: the invariant holds in the concrete state
reached by creating a room and then creating one character. -/
theorem C4_witness :
    RollChoicesInv (createCharacterOp (initRoom "r1" "h1") "p1" "Ann" none
        (some "Fighter") []) ∧
      (performRollOp sC2 staleRollC2 3 20).players = sC2.players :=
  ⟨C4_activeRoll_excludes_choices.1 "r1" "h1" _
      (Relation.ReflTransGen.single
        (Step.createCharacter (initRoom "r1" "h1") "p1" "Ann" none
          (some "Fighter") [])),
    C4_activeRoll_excludes_choices.2 sC2 staleRollC2 3 20⟩

theorem getLast?_take_eq {α : Type} (l : List α) (n : Nat) (hn : n ≤ l.length)
    (m : α) (h : (l.take n).getLast? = some m) :
    ∃ hlt : n - 1 < l.length, m = l[n - 1] ∧ 0 < n := by
  rw [List.getLast?_eq_getElem?, List.length_take, Nat.min_eq_left hn,
    List.getElem?_take] at h
  by_cases hz : n = 0
  · subst hz
    rw [if_neg (by omega)] at h
    exact absurd h (by simp)
  · have hpos : 0 < n := Nat.pos_of_ne_zero hz
    rw [if_pos (by omega)] at h
    obtain ⟨hlt, he⟩ := List.getElem?_eq_some.mp h
    exact ⟨hlt, he.symm, hpos⟩

theorem nodup_id_inj (log : List ChatMessage)
    (hnd : (log.map ChatMessage.id).Nodup) {i j : Nat}
    (hi : i < log.length) (hj : j < log.length)
    (h : log[i].id = log[j].id) : i = j := by
  have hi' : i < (log.map ChatMessage.id).length := by simpa using hi
  have hj' : j < (log.map ChatMessage.id).length := by simpa using hj
  have h2 : (log.map ChatMessage.id)[i] = (log.map ChatMessage.id)[j] := by
    rw [List.getElem_map, List.getElem_map]
    exact h
  exact (List.Nodup.getElem_inj_iff hnd).mp h2

theorem guardFires_eq_some {log : List ChatMessage} {cb : Callback}
    {st : GuardState} {i : String} (h : guardFires log cb st = some i) :
    ∃ m, (log.take cb.len).getLast? = some m ∧ i = m.id ∧
      st.lastHandledMessageId ≠ some m.id := by
  cases hl : (log.take cb.len).getLast? with
  | none =>
    simp [guardFires, hl] at h
  | some m =>
    simp only [guardFires, hl] at h
    split at h
    · next hcond =>
      exact ⟨m, rfl, (Option.some.inj h).symm, hcond.2.2.2⟩
    · exact absurd h (by simp)

/-- Once the guard's memo holds the id of the message at position `q`,
no message at a position `p ≤ q` can fire again over callbacks whose
snapshot lengths are monotone and at least `q + 1`. -/
theorem guard_no_refire (log : List ChatMessage)
    (hnd : (log.map ChatMessage.id).Nodup) (cbs : List Callback) :
    ∀ (st : GuardState) (p q : Nat) (hp : p < log.length)
      (hq : q < log.length),
      (cbs.map Callback.len).Pairwise (· ≤ ·) →
      (∀ cb ∈ cbs, cb.len ≤ log.length) →
      p ≤ q →
      st.lastHandledMessageId = some log[q].id →
      (∀ cb ∈ cbs, q + 1 ≤ cb.len) →
      log[p].id ∉ firedIds log st cbs := by
  induction cbs with
  | nil =>
    intro st p q hp hq _ _ _ _ _
    simp [firedIds, runGuard]
  | cons cb cbs ih =>
    intro st p q hp hq hpw hb hpq hmemo hge
    have hpw2 : (cb.len :: cbs.map Callback.len).Pairwise (· ≤ ·) := by
      simpa using hpw
    have hpw' := List.pairwise_cons.mp hpw2
    unfold firedIds runGuard
    cases hf : guardFires log cb st with
    | none =>
      exact ih st p q hp hq (by simpa using hpw'.2)
        (fun c hc => hb c (List.mem_cons_of_mem cb hc)) hpq hmemo
        (fun c hc => hge c (List.mem_cons_of_mem cb hc))
    | some i =>
      obtain ⟨m, hlast, rfl, hne⟩ := guardFires_eq_some hf
      obtain ⟨hlt, hm, hpos⟩ := getLast?_take_eq log cb.len
        (hb cb (List.mem_cons_self cb cbs)) m hlast
      have hqlen : q + 1 ≤ cb.len := hge cb (List.mem_cons_self cb cbs)
      have hqle : q ≤ cb.len - 1 := by omega
      have hqne : cb.len - 1 ≠ q := by
        intro he
        apply hne
        subst he
        rw [hm]
        exact hmemo
      have hqlt : q < cb.len - 1 := by omega
      simp only [List.mem_cons, not_or]
      constructor
      · intro hpe
        rw [hm] at hpe
        have := nodup_id_inj log hnd hp hlt hpe
        omega
      · exact ih ⟨some m.id⟩ p (cb.len - 1) hp hlt (by simpa using hpw'.2)
          (fun c hc => hb c (List.mem_cons_of_mem cb hc)) (by omega)
          (by rw [hm])
          (fun c hc => by
            have := hpw'.1 c.len (List.mem_map_of_mem Callback.len hc)
            omega)

/-- Claim C3: over any sequence of chat-log refresh callbacks that
observe monotonically growing prefixes of an append-only log with
pairwise-distinct message ids, the trigger guard of the chat
subscription fires an orchestration turn for each message id at most
once, whatever the initial memo and the snapshot-dependent guard
conjuncts at each callback. -/
theorem C3_turn_per_message_at_most_once (log : List ChatMessage)
    (st : GuardState) (cbs : List Callback)
    (hnd : (log.map ChatMessage.id).Nodup)
    (hpw : (cbs.map Callback.len).Pairwise (· ≤ ·))
    (hb : ∀ cb ∈ cbs, cb.len ≤ log.length) :
    (firedIds log st cbs).Nodup := by
  induction cbs generalizing st with
  | nil => simp [firedIds, runGuard]
  | cons cb cbs ih =>
    have hpw2 : (cb.len :: cbs.map Callback.len).Pairwise (· ≤ ·) := by
      simpa using hpw
    have hpw' := List.pairwise_cons.mp hpw2
    unfold firedIds runGuard
    cases hf : guardFires log cb st with
    | none =>
      exact ih st (by simpa using hpw'.2)
        (fun c hc => hb c (List.mem_cons_of_mem cb hc))
    | some i =>
      rw [List.nodup_cons]
      constructor
      · obtain ⟨m, hlast, rfl, _⟩ := guardFires_eq_some hf
        obtain ⟨hlt, hm, hpos⟩ := getLast?_take_eq log cb.len
          (hb cb (List.mem_cons_self cb cbs)) m hlast
        subst hm
        exact guard_no_refire log hnd cbs
          ⟨some (log.get ⟨cb.len - 1, hlt⟩).id⟩ (cb.len - 1)
          (cb.len - 1) hlt hlt hpw'.2
          (fun c hc => hb c (List.mem_cons_of_mem cb hc)) le_rfl
          rfl
          (fun c hc => by
            have := hpw'.1 c.len (List.mem_map_of_mem Callback.len hc)
            omega)
      · exact ih ⟨some i⟩ (by simpa using hpw'.2)
          (fun c hc => hb c (List.mem_cons_of_mem cb hc))

/-- Witness for claim C3: a two-message log delivered through three
refresh callbacks (the second a duplicate snapshot) fires at most one
turn per id. -/
theorem C3_witness :
    ((([⟨"m1", .user, "go", some "Ann", true, 1⟩,
        ⟨"m2", .user, "hit", some "Bob", true, 2⟩] :
          List ChatMessage).map ChatMessage.id).Nodup ∧
      (([⟨1, true⟩, ⟨1, true⟩, ⟨2, true⟩] :
          List Callback).map Callback.len).Pairwise (· ≤ ·)) ∧
    (firedIds
      [⟨"m1", .user, "go", some "Ann", true, 1⟩,
        ⟨"m2", .user, "hit", some "Bob", true, 2⟩]
      ⟨none⟩ [⟨1, true⟩, ⟨1, true⟩, ⟨2, true⟩]).Nodup :=
  ⟨⟨by decide, by decide⟩,
    C3_turn_per_message_at_most_once _ ⟨none⟩ _ (by decide) (by decide)
      (by decide)⟩

theorem takeWhile_isDigit_self (ds : List Char) (h : ∀ c ∈ ds, c.isDigit) :
    ds.takeWhile Char.isDigit = ds := by
  induction ds with
  | nil => rfl
  | cons c cs ih =>
    rw [List.takeWhile_cons, if_pos (h c (by simp))]
    rw [ih (fun c' hc' => h c' (by simp [hc']))]

theorem skipWs_digit (c : Char) (cs : List Char) (hc : c.isDigit = true) :
    skipWs (c :: cs) = c :: cs := by
  unfold skipWs
  rw [if_neg]
  intro h
  rcases h with h | h | h | h <;> subst h <;> revert hc <;> decide

theorem parseSign_digit (c : Char) (cs : List Char) (hc : c.isDigit = true) :
    parseSign (c :: cs) = (false, c :: cs) := by
  unfold parseSign
  split
  · next heq =>
    rw [List.cons.injEq] at heq
    rw [heq.1] at hc
    exact absurd hc (by decide)
  · next heq =>
    rw [List.cons.injEq] at heq
    rw [heq.1] at hc
    exact absurd hc (by decide)
  · rfl

theorem jsParseInt_digits (ds : List Char) (hne : ds ≠ [])
    (hd : ∀ c ∈ ds, c.isDigit) :
    jsParseInt ⟨ds⟩ = some (Int.ofNat (digitsToNat ds)) := by
  cases ds with
  | nil => exact absurd rfl hne
  | cons c cs =>
    unfold jsParseInt
    show (let sr := parseSign (skipWs (c :: cs)); _) = _
    rw [skipWs_digit c cs (hd c (by simp)), parseSign_digit c cs (hd c (by simp))]
    simp only
    rw [takeWhile_isDigit_self (c :: cs) hd]
    rw [if_neg (by simp)]
    simp

theorem removeFirstD_d (ds : List Char) : removeFirstD ('d' :: ds) = ds := by
  unfold removeFirstD
  rw [if_pos rfl]

/-- The face count parsed from a well-formed descriptor `d<digits>`. -/
theorem diceFaces_dN (ds : List Char) (hne : ds ≠ [])
    (hd : ∀ c ∈ ds, c.isDigit) (hpos : 0 < digitsToNat ds) :
    diceFaces ⟨'d' :: ds⟩ = Int.ofNat (digitsToNat ds) := by
  unfold diceFaces
  have hdata : (⟨'d' :: ds⟩ : String).data = 'd' :: ds := rfl
  rw [hdata, removeFirstD_d, jsParseInt_digits ds hne hd]
  show (if Int.ofNat (digitsToNat ds) = 0 then (20 : Int)
    else Int.ofNat (digitsToNat ds)) = Int.ofNat (digitsToNat ds)
  rw [if_neg (by intro h; simp at h; omega)]

/-- Result `Math.floor(Math.random() * max) + 1` lands in `[1, max]` for a
positive face count. -/
theorem rollResult_bounds (n : Int) (hn : 0 < n) (u d : Nat) (hu : u < d) :
    1 ≤ rollResult n u d ∧ rollResult n u d ≤ n := by
  unfold rollResult
  have hd0 : 0 < d := Nat.lt_of_le_of_lt (Nat.zero_le u) hu
  have hd : (0 : Int) < (d : Int) := by exact_mod_cast hd0
  rw [Int.fdiv_eq_ediv _ hd.le]
  constructor
  · have : (0 : Int) ≤ (u : Int) * n / (d : Int) :=
      Int.ediv_nonneg (mul_nonneg (by positivity) hn.le) hd.le
    omega
  · have hlt : (u : Int) * n < n * (d : Int) := by
      rw [mul_comm n (d : Int)]
      apply mul_lt_mul_of_pos_right _ hn
      exact_mod_cast hu
    have := (Int.ediv_lt_iff_lt_mul hd).mpr hlt
    omega

/-- Claim C7: for a die descriptor `d<N>` with `N` a positive integer
(given by its digits), the Dice Resolver uses `N` faces and its result
lies in `[1, N]`; for any descriptor whose stripped form `parseInt`s to
`NaN` it defaults to 20 faces, with the result in `[1, 20]`; and in
either case `performRoll` appends one action-tagged chat message
reporting the reason and the result and clears `Room.activeRoll`. -/
theorem C7_dice_resolver (ds : List Char) (hne : ds ≠ [])
    (hd : ∀ c ∈ ds, c.isDigit) (hpos : 0 < digitsToNat ds)
    (u dd : Nat) (hu : u < dd) :
    diceFaces ⟨'d' :: ds⟩ = Int.ofNat (digitsToNat ds) ∧
    (1 ≤ rollResult (Int.ofNat (digitsToNat ds)) u dd ∧
      rollResult (Int.ofNat (digitsToNat ds)) u dd ≤
        Int.ofNat (digitsToNat ds)) ∧
    (∀ s : String, jsParseInt ⟨removeFirstD s.data⟩ = none →
      diceFaces s = 20) ∧
    (1 ≤ rollResult 20 u dd ∧ rollResult 20 u dd ≤ 20) ∧
    ∀ (st : RoomState) (rr : RollRequest),
      (performRollOp st rr u dd).room.activeRoll = none ∧
      (performRollOp st rr u dd).messages =
        st.messages ++ [rollMsg rr u dd] ∧
      (rollMsg rr u dd).isAction = true ∧
      (rollMsg rr u dd).content =
        "[Dice Roll] " ++ rr.reason ++ ": Rolled a " ++
          toString (rollResult (diceFaces rr.diceType) u dd) ++
          " (" ++ rr.diceType ++ ")" := by
  refine ⟨diceFaces_dN ds hne hd hpos,
    rollResult_bounds _ (Int.ofNat_pos.mpr hpos) u dd hu,
    ?_, rollResult_bounds 20 (by decide) u dd hu, ?_⟩
  · intro s hs
    unfold diceFaces
    rw [hs]
  · intro st rr
    exact ⟨rfl, rfl, rfl, rfl⟩

/-- Witness for claim C7: descriptor `d20` with the draw `7 / 20`. -/
theorem C7_witness :
    diceFaces ⟨'d' :: ['2', '0']⟩ = Int.ofNat (digitsToNat ['2', '0']) ∧
    (1 ≤ rollResult (Int.ofNat (digitsToNat ['2', '0'])) 7 20 ∧
      rollResult (Int.ofNat (digitsToNat ['2', '0'])) 7 20 ≤
        Int.ofNat (digitsToNat ['2', '0'])) ∧
    (∀ s : String, jsParseInt ⟨removeFirstD s.data⟩ = none →
      diceFaces s = 20) ∧
    (1 ≤ rollResult 20 7 20 ∧ rollResult 20 7 20 ≤ 20) ∧
    ∀ (st : RoomState) (rr : RollRequest),
      (performRollOp st rr 7 20).room.activeRoll = none ∧
      (performRollOp st rr 7 20).messages =
        st.messages ++ [rollMsg rr 7 20] ∧
      (rollMsg rr 7 20).isAction = true ∧
      (rollMsg rr 7 20).content =
        "[Dice Roll] " ++ rr.reason ++ ": Rolled a " ++
          toString (rollResult (diceFaces rr.diceType) 7 20) ++
          " (" ++ rr.diceType ++ ")" :=
  C7_dice_resolver ['2', '0'] (by decide) (by decide) (by decide) 7 20
    (by decide)

/-- Claim C8: every orchestration turn clears the in-flight flag on
every exit path, and a failing turn (network failure, or ok service
outcome whose raw text fails Response Repair parsing) is caught: the
store ends in a normal state equal to the original except for one
appended visible system error message and the cleared flag - no error
escapes and room/participants are untouched. -/
theorem C8_turn_errors_recoverable (s : SessionState) (room : GameRoom)
    (svc : Except Unit String) (hroom : s.room = some room) :
    (triggerGmResponse s svc).isAiThinking = false ∧
    ((svc = .error () ∨
        ∃ raw, svc = .ok raw ∧ ∃ e, repairParse raw = .error e) →
      triggerGmResponse s svc =
        { s with messages := s.messages ++ [gmErrorMsg]
                 isAiThinking := false }) := by
  constructor
  · unfold triggerGmResponse
    rw [hroom]
  · intro hfail
    have hbody : ∃ e,
        gmTurnBody { s with isAiThinking := true } room svc = .error e := by
      rcases hfail with rfl | ⟨raw, rfl, e, he⟩
      · exact ⟨(), rfl⟩
      · exact ⟨(), by simp [gmTurnBody, he]⟩
    obtain ⟨e, he2⟩ := hbody
    unfold triggerGmResponse
    rw [hroom] at he2 ⊢
    simp only [he2]

/-- Witness for claim C8: a network failure against a live session. -/
theorem C8_witness :
    (triggerGmResponse sessW (.error ())).isAiThinking = false ∧
    triggerGmResponse sessW (.error ()) =
      { sessW with messages := sessW.messages ++ [gmErrorMsg]
                   isAiThinking := false } :=
  ⟨(C8_turn_errors_recoverable sessW roomC1 (.error ()) rfl).1,
    (C8_turn_errors_recoverable sessW roomC1 (.error ()) rfl).2
      (Or.inl rfl)⟩

/-- Claim C9: `sendMessage` with no room, no bound identity, or a
blank (empty or whitespace-only) prompt performs no write at all: the
session state is returned unchanged. -/
theorem C9_sendMessage_guards (s : SessionState) (prompt : String)
    (isAction : Bool)
    (h : s.room = none ∨ s.playerId = none ∨ (jsTrim prompt).isEmpty = true) :
    sendMessage s prompt isAction = s := by
  rcases h with h | h | h
  · cases hp : s.playerId <;> simp [sendMessage, h, hp]
  · cases hr : s.room <;> simp [sendMessage, h, hr]
  · cases hr : s.room <;> cases hp : s.playerId <;>
      simp [sendMessage, h, hr, hp]

/-- Witness for claim C9: a whitespace-only prompt in a live session. -/
theorem C9_witness : sendMessage sessW "   " true = sessW :=
  C9_sendMessage_guards sessW "   " true (Or.inr (Or.inr (by decide)))

/-- Claim C10: `sendMessage` in a live session with a non-blank prompt
appends exactly one user chat message carrying the `isAction` flag;
with `isAction = true` it clears exactly the caller's own choices,
leaving every other participant and all `Room` fields unchanged; with
`isAction = false` no participant is modified at all. -/
theorem C10_sendMessage_action_effects (s : SessionState)
    (room : GameRoom) (pid prompt : String)
    (hroom : s.room = some room) (hpid : s.playerId = some pid)
    (hprompt : (jsTrim prompt).isEmpty = false) :
    (sendMessage s prompt true).messages =
        s.messages ++ [userMsg ⟨room, s.players, s.messages⟩ pid prompt true] ∧
    (sendMessage s prompt true).players =
        s.players.map (fun p =>
          if p.id = pid then { p with choices := none } else p) ∧
    (sendMessage s prompt true).room = s.room ∧
    (sendMessage s prompt true).playerId = s.playerId ∧
    (sendMessage s prompt false).messages =
        s.messages ++ [userMsg ⟨room, s.players, s.messages⟩ pid prompt false] ∧
    (sendMessage s prompt false).players = s.players ∧
    (sendMessage s prompt false).room = s.room := by
  refine ⟨?_, ?_, ?_, ?_, ?_, ?_, ?_⟩ <;>
    simp [sendMessage, hroom, hpid, hprompt, sendMessageRoomOp, userMsg]

/-- Witness for claim C10: a concrete action message in a live
session. -/
theorem C10_witness :
    (sendMessage sessW "attack" true).messages =
        sessW.messages ++
          [userMsg ⟨roomC1, sessW.players, sessW.messages⟩ "p1" "attack" true] ∧
    (sendMessage sessW "attack" true).players =
        sessW.players.map (fun p =>
          if p.id = "p1" then { p with choices := none } else p) ∧
    (sendMessage sessW "attack" true).room = sessW.room ∧
    (sendMessage sessW "attack" true).playerId = sessW.playerId ∧
    (sendMessage sessW "attack" false).messages =
        sessW.messages ++
          [userMsg ⟨roomC1, sessW.players, sessW.messages⟩ "p1" "attack" false] ∧
    (sendMessage sessW "attack" false).players = sessW.players ∧
    (sendMessage sessW "attack" false).room = sessW.room :=
  C10_sendMessage_action_effects sessW roomC1 "p1" "attack" rfl rfl
    (by decide)

theorem getElem_idx_congr {α : Type} (l : List α) (a b : Nat) (hab : a = b)
    (ha : a < l.length) (hb : b < l.length) : l[a] = l[b] := by
  subst hab
  rfl

theorem findIdx?_spec {α : Type} (p : α → Bool) (l : List α) (i : Nat)
    (h : l.findIdx? p = some i) :
    ∃ hi : i < l.length, p l[i] = true ∧
      ∀ j, ∀ hj : j < l.length, j < i → p l[j] = false := by
  obtain ⟨hi, hfi⟩ := List.findIdx?_eq_some_iff_findIdx_eq.mp h
  subst hfi
  exact ⟨hi, List.findIdx_getElem,
    fun j hj hji => List.not_of_lt_findIdx hji⟩

/-- The greedy regex fallback extracts exactly the substring running
from the first opening brace of the raw text to the last closing brace:
no opening brace precedes it, no closing brace follows it, and it is
brace-delimited on both ends. -/
theorem extractGreedy_spec (raw sub : String)
    (h : extractGreedy raw = some sub) :
    ∃ pre post : List Char, raw.data = pre ++ sub.data ++ post ∧
      (∀ c ∈ pre, c ≠ '\x7b') ∧ (∀ c ∈ post, c ≠ '\x7d') ∧
      sub.data.head? = some '\x7b' ∧ sub.data.getLast? = some '\x7d' := by
  unfold extractGreedy at h
  split at h
  · exact absurd h (by simp)
  · next i heqI =>
    split at h
    · exact absurd h (by simp)
    · next k heqK =>
      rw [Option.some.injEq] at h
      subst h
      obtain ⟨hi, hpi, hprev⟩ := findIdx?_spec _ _ _ heqI
      obtain ⟨hk0, hpk, hkprev⟩ := findIdx?_spec _ _ _ heqK
      have hklen : k < (raw.data.drop i).length := by
        have h2 := hk0
        rwa [List.length_reverse] at h2
      refine ⟨raw.data.take i,
        (raw.data.drop i).drop ((raw.data.drop i).length - k),
        ?_, ?_, ?_, ?_, ?_⟩
      · show raw.data = raw.data.take i ++
          (raw.data.drop i).take ((raw.data.drop i).length - k) ++ _
        rw [List.append_assoc, List.take_append_drop, List.take_append_drop]
      · intro c hc
        obtain ⟨j, hj, rfl⟩ := List.mem_iff_getElem.mp hc
        have hjlt : j < i := by
          have h2 := hj
          rw [List.length_take] at h2
          omega
        have hjlen : j < raw.data.length := by omega
        have hflat : (raw.data.take i)[j] = raw.data[j] :=
          List.getElem_take _
        rw [hflat]
        have h3 := hprev j hjlen hjlt
        simpa using h3
      · intro c hc
        obtain ⟨j, hj, rfl⟩ := List.mem_iff_getElem.mp hc
        have hjk : j < k := by
          have h2 := hj
          rw [List.length_drop] at h2
          omega
        have hidx : (raw.data.drop i).length - k + j <
            (raw.data.drop i).length := by omega
        have hflat : ((raw.data.drop i).drop
              ((raw.data.drop i).length - k))[j] =
            (raw.data.drop i)[(raw.data.drop i).length - k + j] :=
          List.getElem_drop _
        rw [hflat]
        intro hcon
        have hrevidx : k - 1 - j < (raw.data.drop i).reverse.length := by
          rw [List.length_reverse]
          omega
        have hfalse := hkprev (k - 1 - j) hrevidx (by omega)
        rw [List.getElem_reverse] at hfalse
        have hb1 : (raw.data.drop i).length - 1 - (k - 1 - j) <
            (raw.data.drop i).length := by omega
        have heq2 : (raw.data.drop i)[(raw.data.drop i).length - 1 -
              (k - 1 - j)] =
            (raw.data.drop i)[(raw.data.drop i).length - k + j] :=
          getElem_idx_congr _ _ _ (by omega) hb1 hidx
        rw [heq2, hcon] at hfalse
        simp at hfalse
      · rw [List.head?_take, if_neg (by omega), List.head?_drop]
        have hsome : raw.data[i]? = some raw.data[i] :=
          List.getElem?_eq_getElem hi
        rw [hsome]
        have h3 : raw.data[i] = '\x7b' := by simpa using hpi
        rw [h3]
      · rw [List.getLast?_eq_getElem?]
        have hlen : ((raw.data.drop i).take
            ((raw.data.drop i).length - k)).length =
            (raw.data.drop i).length - k := by
          rw [List.length_take]
          omega
        rw [hlen, List.getElem?_take, if_pos (by omega)]
        have hidx2 : (raw.data.drop i).length - k - 1 <
            (raw.data.drop i).length := by omega
        have hsome : (raw.data.drop i)[(raw.data.drop i).length - k - 1]? =
            some ((raw.data.drop i)[(raw.data.drop i).length - k - 1]) :=
          List.getElem?_eq_getElem hidx2
        rw [hsome]
        have hval := hpk
        rw [List.getElem_reverse] at hval
        have hb1 : (raw.data.drop i).length - 1 - k <
            (raw.data.drop i).length := by omega
        have heq2 : (raw.data.drop i)[(raw.data.drop i).length - 1 - k] =
            (raw.data.drop i)[(raw.data.drop i).length - k - 1] :=
          getElem_idx_congr _ _ _ (by omega) hb1 hidx2
        rw [heq2] at hval
        have h3 : (raw.data.drop i)[(raw.data.drop i).length - k - 1] =
            '\x7d' := by simpa using hval
        rw [h3]

/-- Claim C6 is false on the code: on `rawC6` the implementation raises
the unrecoverable parse error, while the algorithm the claim describes
(extract the first substring bounded by an opening brace and its
corresponding closing brace) parses successfully. -/
theorem C6_counterexample :
    repairParse rawC6 = .error .unrecoverable ∧
    specRepairParse rawC6 = .ok (.obj [("narrative", .str "x")]) ∧
    repairParse rawC6 ≠ specRepairParse rawC6 := by
  refine ⟨rfl, rfl, ?_⟩
  intro hcon
  have h1 : (Except.error ParseErr.unrecoverable : Except ParseErr Json) =
      Except.ok (Json.obj [("narrative", Json.str "x")]) := hcon
  simp at h1

/-- Claim C6 (amended): Response Repair first attempts a direct parse of
the whole raw text; on failure it extracts the substring running from
the first opening brace to the last closing brace of the text (the
greedy regex match, not the corresponding balanced brace) and attempts
to parse that; and only when that also fails (or no brace-bounded
substring exists) does it raise the parse error that is unrecoverable
for the turn. -/
theorem C6_repair_parse_algorithm (raw : String) :
    (∀ j, jsonParse raw = some j → repairParse raw = .ok j) ∧
    (jsonParse raw = none → ∀ sub, extractGreedy raw = some sub →
      (∃ pre post : List Char, raw.data = pre ++ sub.data ++ post ∧
        (∀ c ∈ pre, c ≠ '\x7b') ∧ (∀ c ∈ post, c ≠ '\x7d') ∧
        sub.data.head? = some '\x7b' ∧ sub.data.getLast? = some '\x7d') ∧
      repairParse raw =
        (match jsonParse sub with
         | some j => .ok j
         | none => .error .unrecoverable)) ∧
    (jsonParse raw = none → extractGreedy raw = none →
      repairParse raw = .error .noJsonFound) := by
  refine ⟨?_, ?_, ?_⟩
  · intro j hj
    unfold repairParse
    rw [hj]
  · intro hn sub hsub
    refine ⟨extractGreedy_spec raw sub hsub, ?_⟩
    unfold repairParse
    rw [hn, hsub]
  · intro hn he
    unfold repairParse
    rw [hn, he]

/-- Witness for claim C6 (amended), at the counterexample input. -/
theorem C6_witness :
    (∃ pre post : List Char, rawC6.data = pre ++ subC6.data ++ post ∧
      (∀ c ∈ pre, c ≠ '\x7b') ∧ (∀ c ∈ post, c ≠ '\x7d') ∧
      subC6.data.head? = some '\x7b' ∧ subC6.data.getLast? = some '\x7d') ∧
    repairParse rawC6 =
      (match jsonParse subC6 with
       | some j => .ok j
       | none => .error .unrecoverable) :=
  (C6_repair_parse_algorithm rawC6).2.1 rfl subC6 rfl

theorem padOnce_length (l : List String) :
    l.length ≤ (padOnce l).length ∧ (padOnce l).length ≤ l.length + 1 := by
  unfold padOnce
  split <;> simp

theorem padTo2_length (l : List String) : 2 ≤ (padTo2 l).length := by
  unfold padTo2 padOnce
  split_ifs <;> simp_all

theorem padStep_not_mem (l : List String) (h : l.length < 4) :
    padStep l ∉ l := by
  unfold padStep
  cases hf : padDefaults.find? (fun d => !l.contains d) with
  | some d =>
    rw [Option.getD_some]
    have hp := List.find?_some hf
    intro hmem
    simp [hmem] at hp
  | none =>
    exfalso
    rw [List.find?_eq_none] at hf
    have hmem : ∀ d ∈ padDefaults, d ∈ l := by
      intro d hd
      have h2 := hf d hd
      simpa using h2
    have hsub : padDefaults.toFinset ⊆ l.toFinset := by
      intro d hd
      rw [List.mem_toFinset] at hd ⊢
      exact hmem d hd
    have hcard := Finset.card_le_card hsub
    have h4 : padDefaults.toFinset.card = 4 := by decide
    have hle := l.toFinset_card_le
    omega

theorem padOnce_nodup (l : List String) (hnd : l.Nodup) (hlen : l.length < 4) :
    (padOnce l).Nodup := by
  unfold padOnce
  split
  · rw [List.nodup_append]
    refine ⟨hnd, List.nodup_singleton _, ?_⟩
    intro a ha hb
    rw [List.mem_singleton] at hb
    subst hb
    exact padStep_not_mem l hlen ha
  · exact hnd

theorem padTo2_nodup (l : List String) (h : l.length < 2) :
    (padTo2 l).Nodup := by
  have hnd : l.Nodup := by
    match l, h with
    | [], _ => exact List.nodup_nil
    | [a], _ => exact List.nodup_singleton a
  unfold padTo2
  apply padOnce_nodup
  · exact padOnce_nodup l hnd (by omega)
  · have := padOnce_length l
    omega

theorem findCI_lower_congr (m : List (String × List String)) (c c' : String)
    (h : strLower c = strLower c') : findCI m c = findCI m c' := by
  unfold findCI
  rw [h]

theorem findCI_append (m1 m2 : List (String × List String)) (c : String) :
    findCI (m1 ++ m2) c = (findCI m1 c).or (findCI m2 c) := by
  unfold findCI
  exact List.find?_append

theorem findCI_map_replace (m : List (String × List String)) (c k : String)
    (v : List String) :
    findCI (m.map (fun kv => if kv.1 = k then (kv.1, v) else kv)) c =
      match findCI m c with
      | some kv => some (if kv.1 = k then (kv.1, v) else kv)
      | none => none := by
  induction m with
  | nil => rfl
  | cons kv m ih =>
    have hkey : (if kv.1 = k then (kv.1, v) else kv).1 = kv.1 := by
      split <;> rfl
    by_cases hm : strLower kv.1 = strLower c
    · unfold findCI
      rw [List.map_cons, List.find?_cons_of_pos _ (by simpa [hkey] using hm),
        List.find?_cons_of_pos _ (by simpa using hm)]
    · unfold findCI at ih ⊢
      rw [List.map_cons, List.find?_cons_of_neg _ (by simpa [hkey] using hm),
        List.find?_cons_of_neg _ (by simpa using hm)]
      exact ih

/-- Repairing class `c` establishes the padding guarantee for `c`
(shortness judged against the map being repaired). -/
theorem repairOne_establishes (m : List (String × List String)) (c : String) :
    ∃ k l, findCI (repairOne m c) c = some (k, l) ∧ 2 ≤ l.length ∧
      (smallIn m c → l.Nodup) := by
  cases hf : m.find? (fun kv => strLower kv.1 = strLower c) with
  | some kv =>
    by_cases hlen : kv.2.length < 2
    · simp only [repairOne, hf, if_pos hlen]
      rw [findCI_map_replace]
      rw [show findCI m c = some kv from hf]
      exact ⟨kv.1, padTo2 kv.2, by simp, padTo2_length _,
        fun _ => padTo2_nodup _ hlen⟩
    · simp only [repairOne, hf, if_neg hlen]
      refine ⟨kv.1, kv.2, ?_, by omega, fun hs => ?_⟩
      · rw [show findCI m c = some kv from hf]
      · exfalso
        unfold smallIn at hs
        rw [show findCI m c = some kv from hf] at hs
        omega
  | none =>
    simp only [repairOne, hf]
    refine ⟨c, padTo2 [], ?_, padTo2_length _,
      fun _ => padTo2_nodup _ (by simp)⟩
    rw [findCI_append, show findCI m c = none from hf]
    simp [findCI]

/-- An entry that already satisfies the padding guarantee is left
exactly as it is by every later repair step. -/
theorem repairOne_preserves (m : List (String × List String))
    (c c' k : String) (l : List String)
    (hfind : findCI m c = some (k, l)) (hlen : 2 ≤ l.length) :
    findCI (repairOne m c') c = some (k, l) := by
  cases hf : m.find? (fun kv => strLower kv.1 = strLower c') with
  | some kv =>
    by_cases hl2 : kv.2.length < 2
    · simp only [repairOne, hf, if_pos hl2]
      rw [findCI_map_replace, hfind]
      have hkne : k ≠ kv.1 := by
        intro he
        by_cases hcc : strLower c' = strLower c
        · have hsame : m.find? (fun kv => strLower kv.1 = strLower c') =
              findCI m c := by
            unfold findCI
            rw [hcc]
          rw [hsame, hfind] at hf
          injection hf with h3
          subst h3
          simp at hl2
          omega
        · have h1 := List.find?_some hfind
          have h2 := List.find?_some hf
          simp only [decide_eq_true_eq] at h1 h2
          apply hcc
          rw [← h2, ← he]
          exact h1
      simp [hkne]
    · simp only [repairOne, hf, if_neg hl2]
      exact hfind
  | none =>
    simp only [repairOne, hf]
    rw [findCI_append, hfind]
    rfl

/-- Repairing a class with a different lowercase form does not change
what a lookup for `c` sees. -/
theorem repairOne_other (m : List (String × List String)) (c c' : String)
    (hne : strLower c' ≠ strLower c) :
    findCI (repairOne m c') c = findCI m c := by
  cases hf : m.find? (fun kv => strLower kv.1 = strLower c') with
  | some kv =>
    by_cases hl2 : kv.2.length < 2
    · simp only [repairOne, hf, if_pos hl2]
      rw [findCI_map_replace]
      cases hfc : findCI m c with
      | none => rfl
      | some kv2 =>
        have h1 := List.find?_some hfc
        have h2 := List.find?_some hf
        simp only [decide_eq_true_eq] at h1 h2
        have hne2 : kv2.1 ≠ kv.1 := by
          intro he
          apply hne
          rw [← h2, ← he, h1]
        simp [hne2]
    · simp only [repairOne, hf, if_neg hl2]
  | none =>
    simp only [repairOne, hf]
    rw [findCI_append]
    cases hfc : findCI m c with
    | some kv2 => rfl
    | none =>
      simp [findCI, hne]

theorem propFull_repairOne (m0 m : List (String × List String))
    (c c' : String) (hp : PropFull m0 m c) :
    PropFull m0 (repairOne m c') c := by
  obtain ⟨k, l, h1, h2, h3⟩ := hp
  exact ⟨k, l, repairOne_preserves m c c' k l h1 h2, h2, h3⟩

theorem propFull_lower_congr (m0 m : List (String × List String))
    (c c' : String) (h : strLower c = strLower c')
    (hp : PropFull m0 m c') : PropFull m0 m c := by
  obtain ⟨k, l, h1, h2, h3⟩ := hp
  refine ⟨k, l, ?_, h2, fun hs => h3 ?_⟩
  · rw [findCI_lower_congr m c c' h]
    exact h1
  · unfold smallIn at hs ⊢
    rw [findCI_lower_congr m0 c' c h.symm]
    exact hs

theorem mixed_establish (m0 m : List (String × List String)) (c' : String)
    (hmix : findCI m c' = findCI m0 c' ∨ PropFull m0 m c') :
    PropFull m0 (repairOne m c') c' := by
  rcases hmix with heq | hp
  · obtain ⟨k, l, h1, h2, h3⟩ := repairOne_establishes m c'
    refine ⟨k, l, h1, h2, fun hs => h3 ?_⟩
    unfold smallIn at hs ⊢
    rw [heq]
    exact hs
  · exact propFull_repairOne m0 m c' c' hp

theorem mixed_step (m0 m : List (String × List String)) (c c' : String)
    (hmixAll : ∀ c0, findCI m c0 = findCI m0 c0 ∨ PropFull m0 m c0) :
    findCI (repairOne m c') c = findCI m0 c ∨
      PropFull m0 (repairOne m c') c := by
  rcases hmixAll c with heq | hp
  · by_cases hcc : strLower c' = strLower c
    · right
      exact propFull_lower_congr m0 _ c c' hcc.symm
        (mixed_establish m0 m c' (hmixAll c'))
    · left
      rw [repairOne_other m c c' hcc, heq]
  · right
    exact propFull_repairOne m0 m c c' hp

theorem propFull_foldPersist (m0 : List (String × List String))
    (ps : List Player) :
    ∀ m c, PropFull m0 m c → PropFull m0 (ps.foldl repairStep m) c := by
  induction ps with
  | nil =>
    intro m c h
    exact h
  | cons p ps ih =>
    intro m c h
    rw [List.foldl_cons]
    cases h2 : truthyClass p with
    | none =>
      have hstep : repairStep m p = m := by
        unfold repairStep
        rw [h2]
      rw [hstep]
      exact ih m c h
    | some cp =>
      have hstep : repairStep m p = repairOne m cp := by
        unfold repairStep
        rw [h2]
      rw [hstep]
      exact ih _ c (propFull_repairOne m0 m c cp h)

/-- Folding the repair step over the participants establishes the
padding guarantee for every class-bearing participant. -/
theorem repair_fold (m0 : List (String × List String)) (ps : List Player) :
    ∀ m, (∀ c0, findCI m c0 = findCI m0 c0 ∨ PropFull m0 m c0) →
      ∀ p ∈ ps, ∀ c, truthyClass p = some c →
        PropFull m0 (ps.foldl repairStep m) c := by
  induction ps with
  | nil =>
    intro m _ p hp
    simp at hp
  | cons p ps ih =>
    intro m hm q hq c hqc
    rw [List.foldl_cons]
    cases h2 : truthyClass p with
    | none =>
      have hstep : repairStep m p = m := by
        unfold repairStep
        rw [h2]
      rw [hstep]
      rcases List.mem_cons.mp hq with rfl | hq2
      · rw [h2] at hqc
        cases hqc
      · exact ih m hm q hq2 c hqc
    | some cp =>
      have hstep : repairStep m p = repairOne m cp := by
        unfold repairStep
        rw [h2]
      rw [hstep]
      have hm2 : ∀ c0, findCI (repairOne m cp) c0 = findCI m0 c0 ∨
          PropFull m0 (repairOne m cp) c0 :=
        fun c0 => mixed_step m0 m c0 cp hm
      rcases List.mem_cons.mp hq with rfl | hq2
      · rw [h2] at hqc
        injection hqc with h3
        subst h3
        exact propFull_foldPersist m0 ps _ cp
          (mixed_establish m0 m cp (hm cp))
      · exact ih _ hm2 q hq2 c hqc

/-- Claim C5 is false on the code as universally stated: for a response
whose Fighter list is `["a", "a"]` (two entries, one distinct value),
the padding stage leaves the list untouched - it only pads lists shorter
than two - so the class-bearing Fighter participant does not receive two
distinct choices. -/
theorem C5_counterexample :
    gC5.roll_request = none ∧
    (repairChoices [fighterC2] gC5).choices =
      some [("Fighter", ["a", "a"])] ∧
    ¬ ∃ x ∈ (["a", "a"] : List String), ∃ y ∈ (["a", "a"] : List String),
      x ≠ y := by
  refine ⟨rfl, by decide, by decide⟩

/-- Claim C5 (amended): after a successful parse with no roll request,
every participant with a truthy class label ends with a
case-insensitively matching choices entry of length at least two
(created and padded from the ordered fallback pool if absent), and that
entry is duplicate-free whenever its pre-repair form was absent or
shorter than two entries; a pre-existing list of length two or more is
left untouched and may keep duplicates. The spec's concrete input
parses with narrative `"x"` and a Fighter list padded to two distinct
entries. -/
theorem C5_choice_padding :
    (∀ (players : List Player) (g : GmResponse), g.roll_request = none →
      ∀ p ∈ players, ∀ c, truthyClass p = some c →
      ∃ k l,
        findCI ((repairChoices players g).choices.getD []) c = some (k, l) ∧
        2 ≤ l.length ∧ (smallIn (g.choices.getD []) c → l.Nodup)) ∧
    ((repairParse rawC5).toOption.map toGmResponse = some gParsedC5 ∧
      gParsedC5.narrative = some "x" ∧
      (repairChoices [fighterC2] gParsedC5).choices =
        some [("Fighter", ["a", "Observe surroundings"])] ∧
      2 ≤ (["a", "Observe surroundings"] : List String).length ∧
      (["a", "Observe surroundings"] : List String).Nodup) := by
  constructor
  · intro players g hroll p hp c hc
    have hchoices : (repairChoices players g).choices =
        some (players.foldl repairStep (g.choices.getD [])) := by
      unfold repairChoices
      rw [hroll]
      rfl
    rw [hchoices, Option.getD_some]
    exact repair_fold (g.choices.getD []) players (g.choices.getD [])
      (fun c0 => Or.inl rfl) p hp c hc
  · exact ⟨rfl, rfl, by decide, by decide, by decide⟩

/-- Witness for claim C5 (amended): the Fighter participant against the
parsed concrete input. -/
theorem C5_witness :
    ∃ k l,
      findCI ((repairChoices [fighterC2] gParsedC5).choices.getD [])
        "Fighter" = some (k, l) ∧
      2 ≤ l.length ∧
      (smallIn (gParsedC5.choices.getD []) "Fighter" → l.Nodup) :=
  C5_choice_padding.1 [fighterC2] gParsedC5 rfl fighterC2
    (List.mem_singleton_self fighterC2) "Fighter" rfl
